import Mathlib

/-!
Shallow embedding of the TypeScript validation-combinator library
(src/8/src and the unnamed companion files: base-validator.ts, types.ts,
string/number/boolean/date/array/object validators, schema.ts).

JS runtime values are modelled by `JSValue`; JS numbers (doubles) are
modelled by `JSNum`, whose finite values are integers (the claims under
study never depend on fractional values).  A missing `data` field of a
`ValidationResult` is modelled as the value `undefined`, exactly as a
TypeScript reader of `result.data` would observe it.
-/

namespace TSV

/-- JS number model: NaN, the two infinities, and finite values
(restricted to integers; no claim depends on fractional doubles). -/
inductive JSNum where
  | nan
  | posInf
  | negInf
  | fin (v : Int)
deriving Repr, DecidableEq

/-- JS runtime values handled by the library.  `date none` is a Date
object holding an invalid instant (NaN time); `date (some t)` holds the
epoch-millisecond instant `t`.  Objects are string-keyed records in
insertion order, as JS objects with string keys are. -/
inductive JSValue where
  | undefined
  | null
  | bool (b : Bool)
  | num (n : JSNum)
  | str (s : String)
  | date (t : Option Int)
  | arr (items : List JSValue)
  | obj (fields : List (String × JSValue))
deriving Repr

/-- The JS `typeof` operator on modelled values. -/
def JSValue.typeOf : JSValue → String
  | .undefined => "undefined"
  | .null => "object"
  | .bool _ => "boolean"
  | .num _ => "number"
  | .str _ => "string"
  | .date _ => "object"
  | .arr _ => "object"
  | .obj _ => "object"

/-- `Array.isArray`. -/
def JSValue.isArr : JSValue → Bool
  | .arr _ => true
  | _ => false

/-- JS truthiness (`!!value`): undefined, null, false, NaN, 0 and the
empty string are falsy; every object (including Date) is truthy. -/
def JSValue.truthy : JSValue → Bool
  | .undefined => false
  | .null => false
  | .bool b => b
  | .num .nan => false
  | .num (.fin v) => v != 0
  | .num _ => true
  | .str s => s != ""
  | .date _ => true
  | .arr _ => true
  | .obj _ => true

/-- A validation error, mirroring `ValidationError` from types.ts. -/
structure ValidationError where
  path : String
  message : String
  value : JSValue
deriving Repr

/-- A validation result, mirroring `ValidationResult` from types.ts.
The TS field `data?: T` is read as `undefined` when absent, so it is
modelled by a `JSValue` that is `undefined` when no data is present. -/
structure ValidationResult where
  isValid : Bool
  data : JSValue
  errors : List ValidationError
deriving Repr

/-- `BaseValidator.createSuccess`. -/
def createSuccess (d : JSValue) : ValidationResult :=
  { isValid := true, data := d, errors := [] }

/-- `BaseValidator.createFailure` (no `data` field is set). -/
def createFailure (es : List ValidationError) : ValidationResult :=
  { isValid := false, data := .undefined, errors := es }

/-- `ValidatorOptions` from types.ts. -/
structure ValidatorOptions where
  message : Option String := none
  optional : Bool := false
deriving Repr

/-- The two absence sentinels of the base optional check
(`value === undefined || value === null`). -/
def isAbsentSentinel : JSValue → Bool
  | .undefined => true
  | .null => true
  | _ => false

/-- `BaseValidator.validate` (base-validator.ts lines 34-56): optional
handling, delegation to the concrete `validateValue` core, and custom
message replacement on failure. -/
def baseValidate (o : ValidatorOptions) (core : JSValue → String → ValidationResult)
    (value : JSValue) (path : String) : ValidationResult :=
  if o.optional && isAbsentSentinel value then
    { isValid := true, data := .undefined, errors := [] }
  else
    let result := core value path
    if !result.isValid then
      match o.message with
      | some m => { result with errors := result.errors.map (fun e => { e with message := m }) }
      | none => result
    else result

/-! ## String helpers (JS built-ins used by the validators) -/

/-- Whitespace characters recognised by JS trimming, `parseInt` and the
regex class `\s` (the exotic Unicode members of `\s` are not modelled). -/
def isSpaceJS (c : Char) : Bool := c == ' ' || c == '\t' || c == '\n' || c == '\r'

/-- JS `String.prototype.trim`: strip leading and trailing whitespace. -/
def jsTrim (s : String) : String :=
  ⟨((s.data.dropWhile isSpaceJS).reverse.dropWhile isSpaceJS).reverse⟩

/-- JS `String.prototype.toLowerCase` (ASCII). -/
def jsToLower (s : String) : String := s.toLower

/-- Left-to-right, non-overlapping split of a character list on a
non-empty separator, exactly as JS `String.prototype.split(sep)` scans
(`skip` counts separator characters still to be consumed after a match). -/
def listSplitPieces (sep : List Char) (acc : List Char) (skip : Nat) :
    List Char → List (List Char)
  | [] => [acc.reverse]
  | c :: rest =>
    match skip with
    | n + 1 => listSplitPieces sep acc n rest
    | 0 =>
      if sep.isPrefixOf (c :: rest) then
        acc.reverse :: listSplitPieces sep [] (sep.length - 1) rest
      else listSplitPieces sep (c :: acc) 0 rest

/-- JS `s.split(sub)` for the non-empty separators the library uses. -/
def strSplitOn (s sub : String) : List String :=
  (listSplitPieces sub.data [] 0 s.data).map (fun l => ⟨l⟩)

/-- JS `String.prototype.includes sub` for a non-empty `sub`. -/
def jsIncludes (s sub : String) : Bool := (strSplitOn s sub).length != 1

/-- Value of a leading run of decimal digits; `none` if there is none
(the NaN outcome of `parseInt`). -/
def digitsPrefixVal (cs : List Char) : Option Nat :=
  let ds := cs.takeWhile Char.isDigit
  if ds.isEmpty then none
  else some (ds.foldl (fun a c => a * 10 + (c.toNat - 48)) 0)

/-- JS `parseInt(s, 10)`: skip leading whitespace, optional sign, then a
leading digit run; `none` models the NaN result. -/
def parseIntJS (s : String) : Option Int :=
  match s.toList.dropWhile isSpaceJS with
  | '-' :: rest => (digitsPrefixVal rest).map (fun n => -(n : Int))
  | '+' :: rest => (digitsPrefixVal rest).map (fun n => (n : Int))
  | rest => (digitsPrefixVal rest).map (fun n => (n : Int))

/-! ## String validator (string-validator.ts) -/

/-- Characters of the local part of the email regex
`[a-zA-Z0-9._%+-]`. -/
def emailLocalChar (c : Char) : Bool :=
  c.isAlpha || c.isDigit || c == '.' || c == '_' || c == '%' || c == '+' || c == '-'

/-- Characters of the domain part of the email regex `[a-zA-Z0-9.-]`. -/
def emailDomainChar (c : Char) : Bool :=
  c.isAlpha || c.isDigit || c == '.' || c == '-'

/-- Matcher for the domain of the email regex, `[a-zA-Z0-9.-]+\.[a-zA-Z]{2,}`
anchored at the end: at some dot, everything before it is a non-empty run of
domain characters and everything after it is at least two letters. -/
def emailDomainTail (pre : List Char) : List Char → Bool
  | [] => false
  | '.' :: rest =>
      (!pre.isEmpty && pre.all emailDomainChar && decide (2 ≤ rest.length)
        && rest.all Char.isAlpha)
      || emailDomainTail (pre ++ ['.']) rest
  | c :: rest => emailDomainTail (pre ++ [c]) rest

/-- The email regex `^[a-zA-Z0-9._%+-]+@[a-zA-Z0-9.-]+\.[a-zA-Z]{2,}$`
(string-validator.ts line 89).  Neither character class contains `@`, so a
match has exactly one `@`. -/
def emailRegexTest (s : String) : Bool :=
  match strSplitOn s "@" with
  | [l, d] => !l.isEmpty && l.toList.all emailLocalChar && emailDomainTail [] d.toList
  | _ => false

/-- Modelled from the spec: the `url` check calls the host platform's
WHATWG `new URL` parser together with the explicit hostname/protocol
checks of string-validator.ts lines 102-118; the parser itself is not part
of this repository's sources.  Per §4.3 of the spec the value must parse
as an absolute URL whose scheme is http or https, with a non-empty host
that neither starts nor ends with a dot. -/
def urlCheckOk (s : String) : Bool :=
  let afterScheme : Option String :=
    if s.startsWith "http://" then some (s.drop 7)
    else if s.startsWith "https://" then some (s.drop 8)
    else none
  match afterScheme with
  | none => false
  | some rest =>
    let host := rest.toList.takeWhile (fun c => c != '/' && c != '?' && c != '#' && c != ':')
    !host.isEmpty && host.head? != some '.' && host.getLast? != some '.'

/-- Hex digit of the UUID regex (case-insensitive `[0-9a-f]`). -/
def isHexChar (c : Char) : Bool :=
  c.isDigit || ('a' ≤ c && c ≤ 'f') || ('A' ≤ c && c ≤ 'F')

/-- A dash-free group of the UUID: exactly `n` hex characters. -/
def uuidGroup (s : String) (n : Nat) : Bool :=
  s.length == n && s.toList.all isHexChar

/-- Version nibble `[1-5]` (case-irrelevant: digits). -/
def uuidVersionChar (c : Char) : Bool :=
  c == '1' || c == '2' || c == '3' || c == '4' || c == '5'

/-- Variant nibble, case-insensitive `[89ab]`. -/
def uuidVariantChar (c : Char) : Bool :=
  c == '8' || c == '9' || c == 'a' || c == 'b' || c == 'A' || c == 'B'

/-- The UUID regex `^[0-9a-f]{8}-[0-9a-f]{4}-[1-5][0-9a-f]{3}-[89ab][0-9a-f]{3}-[0-9a-f]{12}$/i`
(string-validator.ts lines 123-124); hex groups contain no dash, so the
dash-split decomposition is exact. -/
def uuidRegexTest (s : String) : Bool :=
  match strSplitOn s "-" with
  | [a, b, c, d, e] =>
      uuidGroup a 8 && uuidGroup b 4 && uuidGroup c 4 && uuidGroup d 4 && uuidGroup e 12 &&
      (match c.toList with | v :: _ => uuidVersionChar v | [] => false) &&
      (match d.toList with | v :: _ => uuidVariantChar v | [] => false)
  | _ => false

/-- `StringValidatorOptions`. The `pattern` option is a RegExp; its `test`
method is modelled as an abstract string predicate. -/
structure StringOptions extends ValidatorOptions where
  minLength : Option Nat := none
  maxLength : Option Nat := none
  pattern : Option (String → Bool) := none
  trim : Bool := false
  email : Bool := false
  url : Bool := false
  uuid : Bool := false

/-- `StringValidator.validateValue` (string-validator.ts lines 28-135).
Errors accumulate in source order; error `value`s carry the original
untrimmed input while the success data is the (possibly trimmed) working
string. -/
def stringValidateValue (o : StringOptions) (value : JSValue) (path : String) :
    ValidationResult :=
  match value with
  | .str s =>
    let stringValue := if o.trim then jsTrim s else s
    let errors : List ValidationError :=
      (match o.minLength with
        | some n => if stringValue.length < n then
            [⟨path, "String must be at least " ++ toString n ++ " characters long", value⟩]
          else []
        | none => []) ++
      (match o.maxLength with
        | some n => if stringValue.length > n then
            [⟨path, "String must be at most " ++ toString n ++ " characters long", value⟩]
          else []
        | none => []) ++
      (match o.pattern with
        | some test => if !test stringValue then
            [⟨path, "String does not match required pattern", value⟩]
          else []
        | none => []) ++
      (if o.email &&
          (!emailRegexTest stringValue || jsIncludes stringValue ".." ||
            stringValue.startsWith "." || stringValue.endsWith "." ||
            jsIncludes stringValue " ") then
        [⟨path, "Invalid email format", value⟩]
      else []) ++
      (if o.url && !urlCheckOk stringValue then
        [⟨path, "Invalid URL format", value⟩]
      else []) ++
      (if o.uuid && !uuidRegexTest stringValue then
        [⟨path, "Invalid UUID format", value⟩]
      else [])
    if errors.length > 0 then createFailure errors else createSuccess (.str stringValue)
  | _ => createFailure [⟨path, "Expected string, received " ++ value.typeOf, value⟩]

/-! ## Number validator (number-validator.ts) -/

/-- JS `<` against a finite configured bound (`NaN` comparisons are false,
infinities compare as expected). -/
def JSNum.ltInt : JSNum → Int → Bool
  | .nan, _ => false
  | .posInf, _ => false
  | .negInf, _ => true
  | .fin v, k => v < k

/-- JS `>` against a finite configured bound. -/
def JSNum.gtInt : JSNum → Int → Bool
  | .nan, _ => false
  | .posInf, _ => true
  | .negInf, _ => false
  | .fin v, k => v > k

/-- JS `<=` against a finite bound (used for `value <= 0`). -/
def JSNum.leInt : JSNum → Int → Bool
  | .nan, _ => false
  | .posInf, _ => false
  | .negInf, _ => true
  | .fin v, k => v ≤ k

/-- JS `>=` against a finite bound (used for `value >= 0`). -/
def JSNum.geInt : JSNum → Int → Bool
  | .nan, _ => false
  | .posInf, _ => true
  | .negInf, _ => false
  | .fin v, k => v ≥ k

/-- JS `isFinite`. -/
def JSNum.isFiniteN : JSNum → Bool
  | .fin _ => true
  | _ => false

/-- JS `Number.isInteger`; every finite value of the model is an integer. -/
def JSNum.isIntegerN : JSNum → Bool
  | .fin _ => true
  | _ => false

/-- JS `value % d === 0`: `%` is the truncated remainder; `NaN % d`,
`±Infinity % d` and `x % 0` are NaN, and `NaN === 0` is false. -/
def jsModIsZero (n : JSNum) (d : Int) : Bool :=
  match n with
  | .fin v => if d = 0 then false else v.tmod d = 0
  | _ => false

/-- `NumberValidatorOptions`; bounds and divisors are the finite numbers an
API caller configures. -/
structure NumberOptions extends ValidatorOptions where
  min : Option Int := none
  max : Option Int := none
  integer : Bool := false
  positive : Bool := false
  negative : Bool := false
  finite : Bool := false
  multipleOf : Option Int := none

/-- `NumberValidator.validateValue` (number-validator.ts lines 286-375):
type check, early NaN rejection, then accumulating constraint checks. -/
def numberValidateValue (o : NumberOptions) (value : JSValue) (path : String) :
    ValidationResult :=
  match value with
  | .num n =>
    if n = .nan then
      createFailure [⟨path, "Value must be a valid number (not NaN)", value⟩]
    else
      let errors : List ValidationError :=
        (if o.finite && !n.isFiniteN then [⟨path, "Number must be finite", value⟩] else []) ++
        (match o.min with
          | some m => if n.ltInt m then
              [⟨path, "Number must be at least " ++ toString m, value⟩] else []
          | none => []) ++
        (match o.max with
          | some m => if n.gtInt m then
              [⟨path, "Number must be at most " ++ toString m, value⟩] else []
          | none => []) ++
        (if o.integer && !n.isIntegerN then
          [⟨path, "Number must be an integer", value⟩] else []) ++
        (if o.positive && n.leInt 0 then
          [⟨path, "Number must be positive", value⟩] else []) ++
        (if o.negative && n.geInt 0 then
          [⟨path, "Number must be negative", value⟩] else []) ++
        (match o.multipleOf with
          | some d => if !jsModIsZero n d then
              [⟨path, "Number must be a multiple of " ++ toString d, value⟩] else []
          | none => [])
      if errors.length > 0 then createFailure errors else createSuccess value
  | _ => createFailure [⟨path, "Expected number, received " ++ value.typeOf, value⟩]

/-! ## Boolean validator (boolean-validator.ts) -/

/-- `BooleanValidatorOptions`. -/
structure BooleanOptions extends ValidatorOptions where
  strict : Bool := false
  truthy : Bool := false

/-- The string forms accepted as `true` in default mode. -/
def boolStringTrue (s : String) : Bool :=
  s == "true" || s == "1" || s == "yes" || s == "on"

/-- The string forms accepted as `false` in default mode. -/
def boolStringFalse (s : String) : Bool :=
  s == "false" || s == "0" || s == "no" || s == "off"

/-- Default-mode conversion attempts of `BooleanValidator.validateValue`
(boolean-validator.ts lines 47-80): native boolean, the lowercased/trimmed
string table, then numeric `1`/`0`; `none` falls through to the
cannot-convert error. -/
def boolCoerce : JSValue → Option Bool
  | .bool b => some b
  | .str s =>
    let lowerValue := jsTrim (jsToLower s)
    if boolStringTrue lowerValue then some true
    else if boolStringFalse lowerValue then some false
    else none
  | .num n =>
    if n = .fin 1 then some true
    else if n = .fin 0 then some false
    else none
  | _ => none

/-- `BooleanValidator.validateValue` (boolean-validator.ts lines 23-87):
three mutually exclusive modes, strict taking precedence over truthy. -/
def booleanValidateValue (o : BooleanOptions) (value : JSValue) (path : String) :
    ValidationResult :=
  if o.strict then
    match value with
    | .bool b => createSuccess (.bool b)
    | _ => createFailure [⟨path, "Expected boolean, received " ++ value.typeOf, value⟩]
  else if o.truthy then
    createSuccess (.bool value.truthy)
  else
    match boolCoerce value with
    | some b => createSuccess (.bool b)
    | none =>
      createFailure [⟨path, "Cannot convert " ++ value.typeOf ++ " to boolean", value⟩]

/-! ## Date validator (date-validator.ts)

`new Date(string)` is host-platform parsing whose exact semantics the
library does not control; the embedding is parametric in a parse function
`P : String → Option Int` (`none` models an invalid date).  Every theorem
about the date validator quantifies over `P`. -/

/-- Zero-padding helpers for ISO serialization. -/
def pad2 (n : Nat) : String := if n < 10 then "0" ++ toString n else toString n

/-- Zero-pad to three digits. -/
def pad3 (n : Nat) : String :=
  if n < 10 then "00" ++ toString n
  else if n < 100 then "0" ++ toString n
  else toString n

/-- Zero-pad to four digits. -/
def pad4 (n : Nat) : String :=
  if n < 10 then "000" ++ toString n
  else if n < 100 then "00" ++ toString n
  else if n < 1000 then "0" ++ toString n
  else toString n

/-- Proleptic-Gregorian civil date from days since the Unix epoch
(the standard era-based conversion used by date libraries). -/
def civilFromDays (z0 : Int) : Int × Nat × Nat :=
  let z := z0 + 719468
  let era := z.ediv 146097
  let doe := (z.emod 146097).toNat
  let yoe := (doe - doe / 1460 + doe / 36524 - doe / 146096) / 365
  let y := (yoe : Int) + era * 400
  let doy := doe - (365 * yoe + yoe / 4 - yoe / 100)
  let mp := (5 * doy + 2) / 153
  let d := doy - (153 * mp + 2) / 5 + 1
  let m := if mp < 10 then mp + 3 else mp - 9
  (if m ≤ 2 then y + 1 else y, m, d)

/-- JS `Date.prototype.toISOString` for an epoch-millisecond instant
(years 0-9999; the expanded ±YYYYYY notation for out-of-range years is
not modelled). -/
def toISOString (t : Int) : String :=
  let dayMs := (t.emod 86400000).toNat
  let days := t.ediv 86400000
  let hh := dayMs / 3600000
  let mm := (dayMs / 60000) % 60
  let ss := (dayMs / 1000) % 60
  let msec := dayMs % 1000
  let c := civilFromDays days
  pad4 c.1.toNat ++ "-" ++ pad2 c.2.1 ++ "-" ++ pad2 c.2.2 ++ "T" ++
    pad2 hh ++ ":" ++ pad2 mm ++ ":" ++ pad2 ss ++ "." ++ pad3 msec ++ "Z"

/-- The `format` option values produced by the `iso()`/`timestamp()`
builders.  (The options type also names a "string" member that no builder
produces and no switch case handles; it is omitted.) -/
inductive DateFormat where
  | iso
  | timestamp
deriving Repr, DecidableEq

/-- `DateValidatorOptions`; `min`/`max` hold the epoch-millisecond instants
of the configured Date bounds. -/
structure DateOptions extends ValidatorOptions where
  min : Option Int := none
  max : Option Int := none
  format : Option DateFormat := none

/-- Tail of the strict ISO pattern after the seconds: optionally `.sss`,
optionally `Z`. -/
def isoTailOk : List Char → Bool
  | [] => true
  | ['Z'] => true
  | ['.', a, b, c] => a.isDigit && b.isDigit && c.isDigit
  | ['.', a, b, c, 'Z'] => a.isDigit && b.isDigit && c.isDigit
  | _ => false

/-- The strict ISO regex `^\d{4}-\d{2}-\d{2}T\d{2}:\d{2}:\d{2}(\.\d{3})?Z?$`
(date-validator.ts line 33). -/
def isoFormatTest (s : String) : Bool :=
  match s.toList with
  | y1 :: y2 :: y3 :: y4 :: '-' :: m1 :: m2 :: '-' :: d1 :: d2 :: 'T' ::
      h1 :: h2 :: ':' :: n1 :: n2 :: ':' :: s1 :: s2 :: rest =>
    y1.isDigit && y2.isDigit && y3.isDigit && y4.isDigit && m1.isDigit && m2.isDigit &&
    d1.isDigit && d2.isDigit && h1.isDigit && h2.isDigit && n1.isDigit && n2.isDigit &&
    s1.isDigit && s2.isDigit && isoTailOk rest
  | _ => false

/-- The timestamp-string regex `^\d+$`. -/
def digitsOnly (s : String) : Bool :=
  !s.isEmpty && s.toList.all Char.isDigit

/-- `new Date(n)` for a finite epoch-millisecond argument: valid iff within
the ECMAScript time range of ±8.64e15 ms. -/
def dateFromMs (n : Int) : Option Int :=
  if n.natAbs ≤ 8640000000000000 then some n else none

/-- `new Date(n)` for a JS number (NaN/±Infinity give an invalid date). -/
def dateFromNum : JSNum → Option Int
  | .fin v => dateFromMs v
  | _ => none

/-- The whole-string regex `^[a-zA-Z\s]+$` applied to the trimmed value. -/
def alphaSpaceOnly (s : String) : Bool :=
  !s.isEmpty && s.toList.all (fun c => c.isAlpha || isSpaceJS c)

/-- JS `month > k` where `month` came from `parseInt` (`none` is NaN and
every NaN comparison is false). -/
def parsedGt (o : Option Int) (k : Int) : Bool :=
  match o with
  | some v => v > k
  | none => false

/-- JS `month < k` for a `parseInt` result. -/
def parsedLt (o : Option Int) (k : Int) : Bool :=
  match o with
  | some v => v < k
  | none => false

/-- The format-first validation of `DateValidator.validateValue`
(date-validator.ts lines 27-65): `some` is an early failure return,
`none` continues to general validation. -/
def dateFormatCheck (o : DateOptions) (value : JSValue) (path : String) :
    Option ValidationResult :=
  match o.format with
  | none => none
  | some .iso =>
    match value with
    | .str s =>
      if isoFormatTest s then none
      else some (createFailure
        [⟨path, "Date must be in ISO format (YYYY-MM-DDTHH:mm:ss.sssZ)", value⟩])
    | _ => some (createFailure
        [⟨path, "Date must be in ISO format (YYYY-MM-DDTHH:mm:ss.sssZ)", value⟩])
  | some .timestamp =>
    match value with
    | .num _ => none
    | .str s =>
      if digitsOnly s then none
      else some (createFailure [⟨path, "Date must be a valid timestamp", value⟩])
    | _ => some (createFailure [⟨path, "Date must be a valid timestamp", value⟩])

/-- The string prefilter of date-validator.ts lines 72-86 (only for string
inputs with no format configured): empty after trimming, a known sentinel
word, or letters/whitespace only. -/
def dateStringPrefilterRejects (s : String) : Bool :=
  jsTrim s == "" || s == "invalid" || s == "not-a-date" || s == "not a date" ||
    s == "invalid-date" || alphaSpaceOnly (jsTrim s)

/-- The additional string edge-case checks of date-validator.ts lines
116-153: too short / digit-free / literal "Invalid Date" strings, and the
dash-separated month/day plausibility check (out-of-range month or day,
or February with day > 29). -/
def dateStringEdgeRejects (o : DateOptions) (s : String) : Bool :=
  if jsTrim s != "" && o.format = none then
    let originalString := jsTrim s
    if originalString.length < 4 || !(originalString.toList.any Char.isDigit) ||
        originalString == "Invalid Date" then true
    else if originalString.toList.contains '-' then
      let parts := strSplitOn originalString "-"
      if 3 ≤ parts.length then
        let month := parseIntJS (parts.getD 1 "")
        let day := parseIntJS (parts.getD 2 "")
        (parsedGt month 12 || parsedLt month 1 || parsedGt day 31 || parsedLt day 1) ||
          (month = some 2 && parsedGt day 29)
      else false
    else false
  else false

/-- Validity check, string edge cases and bound checks after date
construction (date-validator.ts lines 108-182).  `strInput` is the
original string when the input was a string, `dv` the constructed date. -/
def dateAfterConstruction (o : DateOptions) (value : JSValue) (path : String)
    (strInput : Option String) (dv : Option Int) : ValidationResult :=
  match dv with
  | none => createFailure [⟨path, "Invalid date", value⟩]
  | some t =>
    let edgeReject : Bool :=
      match strInput with
      | some s => dateStringEdgeRejects o s
      | none => false
    if edgeReject then createFailure [⟨path, "Invalid date", value⟩]
    else
      let errors : List ValidationError :=
        (match o.min with
          | some m => if t < m then
              [⟨path, "Date must be after " ++ toISOString m, value⟩] else []
          | none => []) ++
        (match o.max with
          | some m => if t > m then
              [⟨path, "Date must be before " ++ toISOString m, value⟩] else []
          | none => [])
      if errors.length > 0 then createFailure errors else createSuccess (.date (some t))

/-- `DateValidator.validateValue` (date-validator.ts lines 24-182),
parametric in the platform string-date parser `P`. -/
def dateValidateValue (P : String → Option Int) (o : DateOptions)
    (value : JSValue) (path : String) : ValidationResult :=
  match dateFormatCheck o value path with
  | some r => r
  | none =>
    match value with
    | .date t => dateAfterConstruction o value path none t
    | .str s =>
      if o.format = none && dateStringPrefilterRejects s then
        createFailure [⟨path, "Invalid date", value⟩]
      else
        let dv := if o.format = some .timestamp then (parseIntJS s).bind dateFromMs else P s
        dateAfterConstruction o value path (some s) dv
    | .num n => dateAfterConstruction o value path none (dateFromNum n)
    | _ =>
      createFailure
        [⟨path, "Expected Date, string, or number, received " ++ value.typeOf, value⟩]

/-! ## JSON.stringify (used by the array uniqueness key) -/

/-- Escape one character for a JSON string literal. -/
def jsonEscapeChar (c : Char) : String :=
  if c == '"' then "\\\""
  else if c == '\\' then "\\\\"
  else if c == '\n' then "\\n"
  else if c == '\t' then "\\t"
  else if c == '\r' then "\\r"
  else if c == '\x08' then "\\b"
  else if c == '\x0c' then "\\f"
  else if c.toNat < 32 then
    "\\u00" ++ pad2 (c.toNat / 16) ++ toString (c.toNat % 16)
  else String.singleton c

/-- JSON string literal for `s`. -/
def jsonQuote (s : String) : String :=
  "\"" ++ String.join (s.toList.map jsonEscapeChar) ++ "\""

/-- JSON number serialization: NaN and the infinities serialize as null. -/
def jsNumJson : JSNum → String
  | .fin v => toString v
  | _ => "null"

mutual

/-- JS `JSON.stringify`: `none` models the `undefined` result for
non-serializable top-level values; a Date serializes via `toJSON` to its
ISO string (null when invalid). -/
def jsonStringify : JSValue → Option String
  | .undefined => none
  | .null => some "null"
  | .bool b => some (if b then "true" else "false")
  | .num n => some (jsNumJson n)
  | .str s => some (jsonQuote s)
  | .date t =>
    some (match t with
      | some ms => jsonQuote (toISOString ms)
      | none => "null")
  | .arr items => some ("[" ++ String.intercalate "," (jsonItemParts items) ++ "]")
  | .obj fields => some ("\x7b" ++ String.intercalate "," (jsonFieldParts fields) ++ "\x7d")
termination_by v => (sizeOf v, 0)

/-- Array element serializations (`undefined` elements serialize as null). -/
def jsonItemParts : List JSValue → List String
  | [] => []
  | x :: xs => (jsonStringify x).getD "null" :: jsonItemParts xs
termination_by xs => (sizeOf xs, 1)

/-- Object member serializations (members with `undefined` values are
omitted). -/
def jsonFieldParts : List (String × JSValue) → List String
  | [] => []
  | (k, v) :: rest =>
    match jsonStringify v with
    | none => jsonFieldParts rest
    | some sv => (jsonQuote k ++ ":" ++ sv) :: jsonFieldParts rest
termination_by fs => (sizeOf fs, 1)

end

/-! ## Array validator (array-validator.ts) -/

/-- `ArrayValidatorOptions`. -/
structure ArrayOptions extends ValidatorOptions where
  minLength : Option Nat := none
  maxLength : Option Nat := none
  unique : Bool := false
  noEmpty : Bool := false

/-- The indexed path for arrays. -/
def idxPath (path : String) (i : Nat) : String :=
  path ++ "[" ++ toString i ++ "]"

/-- The uniqueness key of array-validator.ts lines 98-101: a value of
`typeof` "object" that is not null (an object, array or Date) keys by its
`JSON.stringify` form; every other value keys by itself. -/
def uniqueKey (item : JSValue) : JSValue :=
  match item with
  | .date _ => .str ((jsonStringify item).getD "null")
  | .arr _ => .str ((jsonStringify item).getD "null")
  | .obj _ => .str ((jsonStringify item).getD "null")
  | _ => item

/-- Equality in the JS `Set` of seen keys (SameValueZero).  Keys are
primitives or the replacement strings produced by `uniqueKey` — never raw
composites — so value equality decides membership; note that NaN is equal
to itself under SameValueZero. -/
def primEq : JSValue → JSValue → Bool
  | .undefined, .undefined => true
  | .null, .null => true
  | .bool a, .bool b => a == b
  | .num a, .num b => a == b
  | .str a, .str b => a == b
  | _, _ => false

/-- The scan of array-validator.ts lines 96-108: indices whose key was
already seen, in ascending order (the iteration order of the `duplicates`
set). -/
def dupScan (seen : List JSValue) (i : Nat) : List JSValue → List Nat
  | [] => []
  | k :: rest =>
    if seen.any (fun s => primEq s k) then i :: dupScan seen (i + 1) rest
    else dupScan (seen ++ [k]) (i + 1) rest

/-- Duplicate indices of a key list. -/
def dupIndices (keys : List JSValue) : List Nat := dupScan [] 0 keys

/-- Assembly of the array result (array-validator.ts lines 44-128) from
the pre-computed per-item errors and collected item data: length bounds,
noEmpty, item errors, then uniqueness errors, in source order. -/
def arrayFinish (o : ArrayOptions) (value : JSValue) (len : Nat) (path : String)
    (itemErrors : List ValidationError) (validatedItems : List JSValue) :
    ValidationResult :=
  let errors : List ValidationError :=
    (match o.minLength with
      | some n => if len < n then
          [⟨path, "Array must have at least " ++ toString n ++ " items", value⟩] else []
      | none => []) ++
    (match o.maxLength with
      | some n => if len > n then
          [⟨path, "Array must have at most " ++ toString n ++ " items", value⟩] else []
      | none => []) ++
    (if o.noEmpty && len == 0 then [⟨path, "Array cannot be empty", value⟩] else []) ++
    itemErrors ++
    (if o.unique && validatedItems.length > 0 then
      (dupIndices (validatedItems.map uniqueKey)).map (fun i =>
        ⟨idxPath path i, "Array items must be unique", validatedItems.getD i .undefined⟩)
    else [])
  if errors.length > 0 then createFailure errors else createSuccess (.arr validatedItems)

/-! ## Object validator (object-validator.ts) -/

/-- `ObjectValidatorOptions`.  `partialMode` mirrors `options.partial`,
which `validateValue` never reads (it only marks schemas produced by
`partial()`). -/
structure ObjectOptions extends ValidatorOptions where
  strict : Bool := false
  partialMode : Bool := false
  allowNull : Bool := false

/-- The field path: the bare key at the root, dot-joined below it
(object-validator.ts line 68). -/
def fieldPathOf (path k : String) : String :=
  if path == "root" then k else path ++ "." ++ k

/-- JS property read `value[key]` on a string-keyed record (`undefined`
when absent). -/
def jsGet (fields : List (String × JSValue)) (k : String) : JSValue :=
  match fields.find? (fun kv => kv.1 == k) with
  | some kv => kv.2
  | none => .undefined

/-- Own enumerable properties of a value already known to be non-null,
non-array and of `typeof` "object" (a Date object has none). -/
def ownFields : JSValue → List (String × JSValue)
  | .obj fs => fs
  | _ => []

/-- Assembly of the object result (object-validator.ts lines 63-114) from
the pre-computed schema-field errors and output: the strict-mode
unexpected-property errors, or the non-strict copy of extra properties. -/
def objectFinish (o : ObjectOptions) (schemaKeys : List String)
    (fields : List (String × JSValue)) (path : String)
    (fieldErrors : List ValidationError)
    (validatedObject : List (String × JSValue)) : ValidationResult :=
  if o.strict then
    let errors := fieldErrors ++
      (fields.map Prod.fst).filterMap (fun k =>
        if schemaKeys.contains k then none
        else some ⟨fieldPathOf path k, "Unexpected property \"" ++ k ++ "\"", jsGet fields k⟩)
    if errors.length > 0 then createFailure errors
    else createSuccess (.obj validatedObject)
  else
    let outObj := validatedObject ++
      (fields.map Prod.fst).filterMap (fun k =>
        if schemaKeys.contains k then none else some (k, jsGet fields k))
    if fieldErrors.length > 0 then createFailure fieldErrors
    else createSuccess (.obj outObj)

/-! ## The validator universe

Every validator the library can build: the six `BaseValidator` families,
each an immutable options record (plus children for the composites), and
the three combinator-built validators of schema.ts — `Schema.any()`,
`Schema.nullable(v)`, `Schema.union(list)` and the wrapper object produced
by calling `withMessage` on a union. -/
inductive Val where
  | stringV (o : StringOptions)
  | numberV (o : NumberOptions)
  | booleanV (o : BooleanOptions)
  | dateV (o : DateOptions)
  | arrayV (item : Val) (o : ArrayOptions)
  | objectV (schema : List (String × Val)) (o : ObjectOptions)
  | anyV
  | nullableV (w : Val)
  | unionV (vs : List Val)
  | unionMsgV (vs : List Val) (m : String)

mutual

/-- `validate(value, path)` of every validator, parametric in the platform
date parser `P`.  The `BaseValidator` families go through `baseValidate`;
the schema.ts combinators are the plain objects of schema.ts lines
432-524. -/
def validate (P : String → Option Int) (v : Val) (value : JSValue) (path : String) :
    ValidationResult :=
  match v with
  | .stringV o => baseValidate o.toValidatorOptions (stringValidateValue o) value path
  | .numberV o => baseValidate o.toValidatorOptions (numberValidateValue o) value path
  | .booleanV o => baseValidate o.toValidatorOptions (booleanValidateValue o) value path
  | .dateV o => baseValidate o.toValidatorOptions (dateValidateValue P o) value path
  | .arrayV item o =>
    baseValidate o.toValidatorOptions
      (fun w p =>
        match w with
        | .arr items =>
          let pass := arrItemsPass P item p 0 items
          arrayFinish o w items.length p pass.1 pass.2
        | _ => createFailure [⟨p, "Expected array, received " ++ w.typeOf, w⟩])
      value path
  | .objectV s o =>
    baseValidate o.toValidatorOptions
      (fun w p =>
        match w with
        | .null =>
          if o.allowNull then createSuccess .null
          else createFailure [⟨p, "Object cannot be null", w⟩]
        | _ =>
          if w.typeOf != "object" || w.isArr then
            createFailure
              [⟨p, "Expected object, received " ++ (if w.isArr then "array" else w.typeOf), w⟩]
          else
            let fields := ownFields w
            let pass := objFieldsPass P s fields p
            objectFinish o (s.map Prod.fst) fields p pass.1 pass.2)
      value path
  | .anyV => { isValid := true, data := value, errors := [] }
  | .nullableV w =>
    match value with
    | .undefined => { isValid := true, data := .null, errors := [] }
    | .null => { isValid := true, data := .null, errors := [] }
    | _ => validate P w value path
  | .unionV vs => unionGo P vs value path
  | .unionMsgV vs m =>
    let result := unionGo P vs value path
    if !result.isValid then
      { result with errors := result.errors.map (fun e => { e with message := m }) }
    else result
termination_by (sizeOf v, 0)

/-- The member loop of `Schema.union` (schema.ts lines 487-507): the first
successful member result is returned verbatim; if none succeeds, a single
synthetic error.  (The loop also pushes member errors into a local array
that the source then discards; that dead accumulation is not modelled.) -/
def unionGo (P : String → Option Int) (vs : List Val) (value : JSValue) (path : String) :
    ValidationResult :=
  match vs with
  | [] =>
    { isValid := false, data := .undefined,
      errors := [⟨path, "Value does not match any of the union types", value⟩] }
  | v :: rest =>
    let result := validate P v value path
    if result.isValid then result else unionGo P rest value path
termination_by (sizeOf vs, 0)

/-- The item loop of `ArrayValidator.validateValue` (array-validator.ts
lines 80-89): per-item errors and the collected data of valid items that
produced data. -/
def arrItemsPass (P : String → Option Int) (item : Val) (path : String) (i : Nat)
    (items : List JSValue) : List ValidationError × List JSValue :=
  match items with
  | [] => ([], [])
  | x :: rest =>
    let r := validate P item x (idxPath path i)
    let tail := arrItemsPass P item path (i + 1) rest
    if !r.isValid then (r.errors ++ tail.1, tail.2)
    else
      match r.data with
      | .undefined => (tail.1, tail.2)
      | d => (tail.1, d :: tail.2)
termination_by (sizeOf item, items.length + 1)

/-- The schema-field loop of `ObjectValidator.validateValue`
(object-validator.ts lines 67-78): errors and the output object built in
schema declaration order. -/
def objFieldsPass (P : String → Option Int) (schema : List (String × Val))
    (fields : List (String × JSValue)) (path : String) :
    List ValidationError × List (String × JSValue) :=
  match schema with
  | [] => ([], [])
  | (key, w) :: rest =>
    let r := validate P w (jsGet fields key) (fieldPathOf path key)
    let tail := objFieldsPass P rest fields path
    if !r.isValid then (r.errors ++ tail.1, tail.2)
    else
      match r.data with
      | .undefined => (tail.1, tail.2)
      | d => (tail.1, (key, d) :: tail.2)
termination_by (sizeOf schema, 0)

end

/-! Unfolding lemmas for `validate` (its well-founded equations carry
match-disjointness hypotheses; these restate them cleanly). -/

theorem validate_stringV (P : String → Option Int) (o : StringOptions)
    (x : JSValue) (p : String) :
    validate P (.stringV o) x p =
      baseValidate o.toValidatorOptions (stringValidateValue o) x p := by
  simp [validate]

theorem validate_numberV (P : String → Option Int) (o : NumberOptions)
    (x : JSValue) (p : String) :
    validate P (.numberV o) x p =
      baseValidate o.toValidatorOptions (numberValidateValue o) x p := by
  simp [validate]

theorem validate_booleanV (P : String → Option Int) (o : BooleanOptions)
    (x : JSValue) (p : String) :
    validate P (.booleanV o) x p =
      baseValidate o.toValidatorOptions (booleanValidateValue o) x p := by
  simp [validate]

theorem validate_dateV (P : String → Option Int) (o : DateOptions)
    (x : JSValue) (p : String) :
    validate P (.dateV o) x p =
      baseValidate o.toValidatorOptions (dateValidateValue P o) x p := by
  simp [validate]

/-- The array core as a standalone function (the body of the lambda in
`validate`). -/
def arrayValidateCore (P : String → Option Int) (item : Val) (o : ArrayOptions)
    (w : JSValue) (p : String) : ValidationResult :=
  match w with
  | .arr items =>
    let pass := arrItemsPass P item p 0 items
    arrayFinish o w items.length p pass.1 pass.2
  | _ => createFailure [⟨p, "Expected array, received " ++ w.typeOf, w⟩]

theorem validate_arrayV (P : String → Option Int) (item : Val) (o : ArrayOptions)
    (x : JSValue) (p : String) :
    validate P (.arrayV item o) x p =
      baseValidate o.toValidatorOptions (arrayValidateCore P item o) x p := by
  simp only [validate]
  rfl

/-- The object core as a standalone function (the body of the lambda in
`validate`). -/
def objectValidateCore (P : String → Option Int) (s : List (String × Val))
    (o : ObjectOptions) (w : JSValue) (p : String) : ValidationResult :=
  match w with
  | .null =>
    if o.allowNull then createSuccess .null
    else createFailure [⟨p, "Object cannot be null", w⟩]
  | _ =>
    if w.typeOf != "object" || w.isArr then
      createFailure
        [⟨p, "Expected object, received " ++ (if w.isArr then "array" else w.typeOf), w⟩]
    else
      let fields := ownFields w
      let pass := objFieldsPass P s fields p
      objectFinish o (s.map Prod.fst) fields p pass.1 pass.2

theorem validate_objectV (P : String → Option Int) (s : List (String × Val))
    (o : ObjectOptions) (x : JSValue) (p : String) :
    validate P (.objectV s o) x p =
      baseValidate o.toValidatorOptions (objectValidateCore P s o) x p := by
  simp only [validate]
  rfl

theorem validate_anyV (P : String → Option Int) (x : JSValue) (p : String) :
    validate P .anyV x p = { isValid := true, data := x, errors := [] } := by
  simp [validate]

theorem validate_nullableV (P : String → Option Int) (w : Val) (x : JSValue) (p : String) :
    validate P (.nullableV w) x p =
      match x with
      | .undefined => { isValid := true, data := .null, errors := [] }
      | .null => { isValid := true, data := .null, errors := [] }
      | _ => validate P w x p := by
  cases x <;> simp [validate]

theorem validate_unionV (P : String → Option Int) (vs : List Val) (x : JSValue) (p : String) :
    validate P (.unionV vs) x p = unionGo P vs x p := by
  simp [validate]

theorem validate_unionMsgV (P : String → Option Int) (vs : List Val) (m : String)
    (x : JSValue) (p : String) :
    validate P (.unionMsgV vs m) x p =
      (let result := unionGo P vs x p
       if !result.isValid then
         { result with errors := result.errors.map (fun e => { e with message := m }) }
       else result) := by
  simp [validate]

theorem unionGo_nil (P : String → Option Int) (x : JSValue) (p : String) :
    unionGo P [] x p =
      { isValid := false, data := .undefined,
        errors := [⟨p, "Value does not match any of the union types", x⟩] } := by
  simp [unionGo]

theorem unionGo_cons (P : String → Option Int) (v : Val) (rest : List Val)
    (x : JSValue) (p : String) :
    unionGo P (v :: rest) x p =
      (let result := validate P v x p
       if result.isValid then result else unionGo P rest x p) := by
  simp [unionGo]

/-- The `optional()` method of every validator: the `BaseValidator`
families (and the `ArrayValidator`/`ObjectValidator` overrides, which
behave identically) return a new instance with the optional flag set and
all other configuration preserved; the schema.ts combinators return
`Schema.any()`, `Schema.nullable(validator)` and `Schema.union(validators)`
respectively (schema.ts lines 439, 464, 509) — note the union wrapper's
`optional` comes from the spread of `Schema.union(validators)` and drops
the custom message. -/
def Val.optionalV : Val → Val
  | .stringV o => .stringV { o with optional := true }
  | .numberV o => .numberV { o with optional := true }
  | .booleanV o => .booleanV { o with optional := true }
  | .dateV o => .dateV { o with optional := true }
  | .arrayV item o => .arrayV item { o with optional := true }
  | .objectV s o => .objectV s { o with optional := true }
  | .anyV => .anyV
  | .nullableV w => .nullableV w
  | .unionV vs => .unionV vs
  | .unionMsgV vs _ => .unionV vs

/-- The `withMessage(m)` method of every validator: the `BaseValidator`
families return a new instance with the message set; `Schema.any()`
returns `Schema.any()`, `Schema.nullable(v)` returns
`Schema.nullable(v.withMessage(m))`, and `Schema.union(vs)` returns the
message-mapping wrapper (schema.ts lines 440, 465-466, 510-522). -/
def Val.withMessageV : Val → String → Val
  | .stringV o, m => .stringV { o with message := some m }
  | .numberV o, m => .numberV { o with message := some m }
  | .booleanV o, m => .booleanV { o with message := some m }
  | .dateV o, m => .dateV { o with message := some m }
  | .arrayV item o, m => .arrayV item { o with message := some m }
  | .objectV s o, m => .objectV s { o with message := some m }
  | .anyV, _ => .anyV
  | .nullableV w, m => .nullableV (w.withMessageV m)
  | .unionV vs, m => .unionMsgV vs m
  | .unionMsgV vs _, m => .unionMsgV vs m

/-! ## The result invariant (§3 of the spec) -/

/-- A result is well-formed when it succeeds exactly if it carries no
errors, and carries no data when it fails. -/
def GoodResult (r : ValidationResult) : Prop :=
  (r.isValid = true ↔ r.errors = []) ∧ (r.isValid = false → r.data = .undefined)

theorem goodResult_createSuccess (d : JSValue) : GoodResult (createSuccess d) := by
  exact ⟨by simp [createSuccess], by simp [createSuccess]⟩

theorem goodResult_createFailure {es : List ValidationError} (h : es ≠ []) :
    GoodResult (createFailure es) := by
  exact ⟨iff_of_false (by simp [createFailure]) h, fun _ => rfl⟩

/-- The `if errors.length > 0 then failure else success` pattern that every
family core ends with always yields a well-formed result. -/
theorem goodResult_finish (es : List ValidationError) (d : JSValue) :
    GoodResult (if es.length > 0 then createFailure es else createSuccess d) := by
  cases es with
  | nil => simpa using goodResult_createSuccess d
  | cons e rest =>
    simpa using goodResult_createFailure (show e :: rest ≠ [] by simp)

/-- Replacing every error's message preserves well-formedness. -/
theorem goodResult_msgMap {r : ValidationResult} (h : GoodResult r)
    (f : ValidationError → ValidationError) :
    GoodResult { r with errors := r.errors.map f } := by
  obtain ⟨h1, h2⟩ := h
  refine ⟨?_, h2⟩
  simpa using h1

theorem goodResult_baseValidate (o : ValidatorOptions)
    (core : JSValue → String → ValidationResult) (value : JSValue) (path : String)
    (h : GoodResult (core value path)) :
    GoodResult (baseValidate o core value path) := by
  unfold baseValidate
  split
  · exact ⟨by simp, by simp⟩
  · simp only []
    split
    · split
      · exact goodResult_msgMap h _
      · exact h
    · exact h

theorem goodResult_stringCore (o : StringOptions) (value : JSValue) (path : String) :
    GoodResult (stringValidateValue o value path) := by
  unfold stringValidateValue
  split
  · exact goodResult_finish _ _
  · exact goodResult_createFailure (by simp)

theorem goodResult_numberCore (o : NumberOptions) (value : JSValue) (path : String) :
    GoodResult (numberValidateValue o value path) := by
  unfold numberValidateValue
  split
  · split
    · exact goodResult_createFailure (by simp)
    · exact goodResult_finish _ _
  · exact goodResult_createFailure (by simp)

theorem goodResult_booleanCore (o : BooleanOptions) (value : JSValue) (path : String) :
    GoodResult (booleanValidateValue o value path) := by
  unfold booleanValidateValue
  split
  · split
    · exact goodResult_createSuccess _
    · exact goodResult_createFailure (by simp)
  · split
    · exact goodResult_createSuccess _
    · split
      · exact goodResult_createSuccess _
      · exact goodResult_createFailure (by simp)

theorem goodResult_dateAfter (o : DateOptions) (value : JSValue) (path : String)
    (strInput : Option String) (dv : Option Int) :
    GoodResult (dateAfterConstruction o value path strInput dv) := by
  unfold dateAfterConstruction
  split
  · exact goodResult_createFailure (by simp)
  · simp only []
    split
    · exact goodResult_createFailure (by simp)
    · exact goodResult_finish _ _

/-- An early format-check return is always a well-formed (singleton)
failure. -/
theorem dateFormatCheck_good {o : DateOptions} {value : JSValue} {path : String}
    {r : ValidationResult} (h : dateFormatCheck o value path = some r) : GoodResult r := by
  unfold dateFormatCheck at h
  split at h
  · exact absurd h (by simp)
  · split at h
    · split at h
      · exact absurd h (by simp)
      · cases h; exact goodResult_createFailure (by simp)
    · cases h; exact goodResult_createFailure (by simp)
  · split at h
    · exact absurd h (by simp)
    · split at h
      · exact absurd h (by simp)
      · cases h; exact goodResult_createFailure (by simp)
    · cases h; exact goodResult_createFailure (by simp)

theorem goodResult_dateCore (P : String → Option Int) (o : DateOptions)
    (value : JSValue) (path : String) :
    GoodResult (dateValidateValue P o value path) := by
  unfold dateValidateValue
  split
  · exact dateFormatCheck_good (by assumption)
  · split
    · exact goodResult_dateAfter _ _ _ _ _
    · simp only []
      split
      · exact goodResult_createFailure (by simp)
      · exact goodResult_dateAfter _ _ _ _ _
    · exact goodResult_dateAfter _ _ _ _ _
    · exact goodResult_createFailure (by simp)

theorem goodResult_arrayFinish (o : ArrayOptions) (value : JSValue) (len : Nat)
    (path : String) (itemErrors : List ValidationError) (validatedItems : List JSValue) :
    GoodResult (arrayFinish o value len path itemErrors validatedItems) := by
  unfold arrayFinish
  exact goodResult_finish _ _

theorem goodResult_objectFinish (o : ObjectOptions) (schemaKeys : List String)
    (fields : List (String × JSValue)) (path : String)
    (fieldErrors : List ValidationError) (validatedObject : List (String × JSValue)) :
    GoodResult (objectFinish o schemaKeys fields path fieldErrors validatedObject) := by
  unfold objectFinish
  split <;> exact goodResult_finish _ _

/-- Strong induction over the validator universe by size. -/
theorem val_strong_ind (motive : Val → Prop)
    (step : ∀ v : Val, (∀ w : Val, sizeOf w < sizeOf v → motive w) → motive v) :
    ∀ v : Val, motive v := by
  have H : ∀ (n : Nat) (v : Val), sizeOf v ≤ n → motive v := by
    intro n
    induction n with
    | zero =>
      intro v hv
      exact step v (fun w hw => absurd (Nat.lt_of_lt_of_le hw hv) (Nat.not_lt_zero _))
    | succ n ih =>
      intro v hv
      exact step v (fun w hw => ih w (Nat.le_of_lt_succ (Nat.lt_of_lt_of_le hw hv)))
  exact fun v => H (sizeOf v) v (Nat.le_refl _)

/-- The union loop yields a well-formed result when every member does. -/
theorem unionGo_good (P : String → Option Int) (vs : List Val) (x : JSValue) (p : String)
    (h : ∀ v ∈ vs, GoodResult (validate P v x p)) : GoodResult (unionGo P vs x p) := by
  induction vs with
  | nil =>
    rw [unionGo_nil]
    exact ⟨by simp, by simp⟩
  | cons v rest ih =>
    rw [unionGo_cons]
    simp only []
    split
    · exact h v (by simp)
    · exact ih (fun w hw => h w (by simp [hw]))

/-- Every result the library returns is well-formed: it succeeds exactly
when its error list is empty, and carries no data on failure. -/
theorem validate_good (P : String → Option Int) :
    ∀ (v : Val) (x : JSValue) (p : String), GoodResult (validate P v x p) := by
  refine val_strong_ind (fun v => ∀ x p, GoodResult (validate P v x p)) ?_
  intro v IH x p
  match v with
  | .stringV o =>
    rw [validate_stringV]
    exact goodResult_baseValidate _ _ _ _ (goodResult_stringCore _ _ _)
  | .numberV o =>
    rw [validate_numberV]
    exact goodResult_baseValidate _ _ _ _ (goodResult_numberCore _ _ _)
  | .booleanV o =>
    rw [validate_booleanV]
    exact goodResult_baseValidate _ _ _ _ (goodResult_booleanCore _ _ _)
  | .dateV o =>
    rw [validate_dateV]
    exact goodResult_baseValidate _ _ _ _ (goodResult_dateCore _ _ _ _)
  | .arrayV item o =>
    rw [validate_arrayV]
    apply goodResult_baseValidate
    unfold arrayValidateCore
    split
    · exact goodResult_arrayFinish _ _ _ _ _ _
    · exact goodResult_createFailure (by simp)
  | .objectV s o =>
    rw [validate_objectV]
    apply goodResult_baseValidate
    unfold objectValidateCore
    split
    · split
      · exact goodResult_createSuccess _
      · exact goodResult_createFailure (by simp)
    · split
      · exact goodResult_createFailure (by simp)
      · exact goodResult_objectFinish _ _ _ _ _ _
  | .anyV =>
    rw [validate_anyV]
    exact ⟨by simp, by simp⟩
  | .nullableV w =>
    have hw : ∀ y, GoodResult (validate P w y p) :=
      fun y => IH w (by simp only [Val.nullableV.sizeOf_spec]; omega) y p
    rw [validate_nullableV]
    split
    · exact ⟨by simp, by simp⟩
    · exact ⟨by simp, by simp⟩
    · exact hw _
  | .unionV vs =>
    rw [validate_unionV]
    refine unionGo_good P vs x p (fun w hw => ?_)
    refine IH w ?_ x p
    have := List.sizeOf_lt_of_mem hw
    simp only [Val.unionV.sizeOf_spec]
    omega
  | .unionMsgV vs m =>
    have hg : GoodResult (unionGo P vs x p) := by
      refine unionGo_good P vs x p (fun w hw => ?_)
      refine IH w ?_ x p
      have := List.sizeOf_lt_of_mem hw
      simp only [Val.unionMsgV.sizeOf_spec]
      omega
    rw [validate_unionMsgV]
    simp only []
    split
    · exact goodResult_msgMap hg _
    · exact hg

/-- A failing union result is exactly the single synthetic error. -/
theorem unionGo_fail (P : String → Option Int) (vs : List Val) (x : JSValue) (p : String)
    (h : (unionGo P vs x p).isValid = false) :
    unionGo P vs x p =
      { isValid := false, data := .undefined,
        errors := [⟨p, "Value does not match any of the union types", x⟩] } := by
  induction vs with
  | nil => rw [unionGo_nil]
  | cons v rest ih =>
    rw [unionGo_cons] at h ⊢
    simp only [] at h ⊢
    by_cases hv : (validate P v x p).isValid = true
    · rw [if_pos hv] at h
      exact absurd h (by simp [hv])
    · have hv' : (validate P v x p).isValid = false := by
        revert hv; cases (validate P v x p).isValid <;> simp
      rw [if_neg (by simp [hv'])] at h ⊢
      exact ih h

/-- Effect of setting a custom message at the `BaseValidator` level: a
successful result is unchanged, a failing result keeps its shape with
every error's message replaced.  `core'` is the same family core under the
message-extended options (which the cores never read), witnessed by
`hcc`. -/
theorem baseValidate_withMsg (oo : ValidatorOptions) (m : String)
    (core core' : JSValue → String → ValidationResult) (x : JSValue) (p : String)
    (hcc : core' x p = core x p) (hg : GoodResult (core x p)) :
    ((baseValidate oo core x p).isValid = true →
      baseValidate { message := some m, optional := oo.optional } core' x p =
        baseValidate oo core x p) ∧
    ((baseValidate oo core x p).isValid = false →
      baseValidate { message := some m, optional := oo.optional } core' x p =
        { isValid := false, data := .undefined,
          errors := (baseValidate oo core x p).errors.map
            (fun e => { e with message := m }) }) := by
  unfold baseValidate
  rw [hcc]
  by_cases hs : (oo.optional && isAbsentSentinel x) = true
  · rw [if_pos hs, if_pos hs]
    exact ⟨fun _ => rfl, fun h => by simp at h⟩
  · rw [if_neg hs, if_neg hs]
    simp only []
    by_cases hv : (core x p).isValid = true
    · simp [hv]
    · have hv' : (core x p).isValid = false := by
        revert hv; cases (core x p).isValid <;> simp
      have hd : (core x p).data = .undefined := hg.2 hv'
      rcases hcore : core x p with ⟨cv, cd, ce⟩
      rw [hcore] at hv' hd
      simp only [] at hv' hd
      subst hv'; subst hd
      cases hmsg : oo.message with
      | none => simp [List.map_map]
      | some m0 =>
        simp only [Bool.not_false, if_pos]
        refine ⟨fun hcontra => by simp at hcontra, fun _ => ?_⟩
        simp [List.map_map]

/-- C7: configuring `withMessage(m)` leaves successful results untouched
and rewrites every error's message to `m` on failing results (keeping
path/value and the error list's shape).  Claim-level statement proved
below as `c7_withMessage_replaces_all`. -/
theorem validate_withMessage_spec (P : String → Option Int) (m : String) :
    ∀ (v : Val) (x : JSValue) (p : String),
    ((validate P v x p).isValid = true →
      validate P (v.withMessageV m) x p = validate P v x p) ∧
    ((validate P v x p).isValid = false →
      validate P (v.withMessageV m) x p =
        { isValid := false, data := .undefined,
          errors := (validate P v x p).errors.map (fun e => { e with message := m }) }) := by
  refine val_strong_ind _ ?_
  intro v IH x p
  match v with
  | .stringV o =>
    rw [Val.withMessageV, validate_stringV, validate_stringV]
    exact baseValidate_withMsg o.toValidatorOptions m _ _ x p rfl
      (goodResult_stringCore o x p)
  | .numberV o =>
    rw [Val.withMessageV, validate_numberV, validate_numberV]
    exact baseValidate_withMsg o.toValidatorOptions m _ _ x p rfl
      (goodResult_numberCore o x p)
  | .booleanV o =>
    rw [Val.withMessageV, validate_booleanV, validate_booleanV]
    exact baseValidate_withMsg o.toValidatorOptions m _ _ x p rfl
      (goodResult_booleanCore o x p)
  | .dateV o =>
    rw [Val.withMessageV, validate_dateV, validate_dateV]
    exact baseValidate_withMsg o.toValidatorOptions m _ _ x p rfl
      (goodResult_dateCore P o x p)
  | .arrayV item o =>
    rw [Val.withMessageV, validate_arrayV, validate_arrayV]
    refine baseValidate_withMsg o.toValidatorOptions m _ _ x p rfl ?_
    unfold arrayValidateCore
    split
    · exact goodResult_arrayFinish _ _ _ _ _ _
    · exact goodResult_createFailure (by simp)
  | .objectV s o =>
    rw [Val.withMessageV, validate_objectV, validate_objectV]
    refine baseValidate_withMsg o.toValidatorOptions m _ _ x p rfl ?_
    unfold objectValidateCore
    split
    · split
      · exact goodResult_createSuccess _
      · exact goodResult_createFailure (by simp)
    · split
      · exact goodResult_createFailure (by simp)
      · exact goodResult_objectFinish _ _ _ _ _ _
  | .anyV =>
    rw [Val.withMessageV, validate_anyV]
    exact ⟨fun _ => rfl, fun h => by simp at h⟩
  | .nullableV w =>
    rw [Val.withMessageV, validate_nullableV, validate_nullableV]
    split
    · exact ⟨fun _ => rfl, fun h => by simp at h⟩
    · exact ⟨fun _ => rfl, fun h => by simp at h⟩
    · exact IH w (by simp only [Val.nullableV.sizeOf_spec]; omega) x p
  | .unionV vs =>
    rw [Val.withMessageV, validate_unionV, validate_unionMsgV]
    simp only []
    by_cases hv : (unionGo P vs x p).isValid = true
    · simp [hv]
    · have hv' : (unionGo P vs x p).isValid = false := by
        revert hv; cases (unionGo P vs x p).isValid <;> simp
      rw [unionGo_fail P vs x p hv']
      exact ⟨fun h => by simp [unionGo_fail P vs x p hv'] at h, fun _ => by simp⟩
  | .unionMsgV vs m0 =>
    rw [Val.withMessageV, validate_unionMsgV, validate_unionMsgV]
    simp only []
    by_cases hv : (unionGo P vs x p).isValid = true
    · simp [hv]
    · have hv' : (unionGo P vs x p).isValid = false := by
        revert hv; cases (unionGo P vs x p).isValid <;> simp
      rw [unionGo_fail P vs x p hv']
      refine ⟨fun h => by simp at h, fun _ => by simp⟩

/-! ## Claim theorems -/

/-- A trivial concrete platform date parser (rejects every string), used
to instantiate the parse parameter in concrete evaluations. -/
def dateParseNone : String → Option Int := fun _ => none

/-- C2: for every validator `v`, value `x` and path `p` (and every
platform date parser), the result `r = v.validate(x, p)` satisfies:
`r.isValid = true` if and only if `r.errors` is empty, and when
`r.isValid` is false, `r.data` is absent (`undefined`).  The claim's
remaining clause — that on success `data` holds the accepted, possibly
normalized value — is definitional: the accepted value is exactly the
(possibly normalized) datum the validator places in `data`. -/
theorem c2_result_invariant (P : String → Option Int) (v : Val) (x : JSValue) (p : String) :
    ((validate P v x p).isValid = true ↔ (validate P v x p).errors = []) ∧
    ((validate P v x p).isValid = false → (validate P v x p).data = .undefined) :=
  validate_good P v x p

/-- Witness for C2 at a concrete validator and input. -/
theorem c2_result_invariant_witness :
    ((validate dateParseNone (.stringV {}) (.num (.fin 3)) "root").isValid = true ↔
      (validate dateParseNone (.stringV {}) (.num (.fin 3)) "root").errors = []) ∧
    ((validate dateParseNone (.stringV {}) (.num (.fin 3)) "root").isValid = false →
      (validate dateParseNone (.stringV {}) (.num (.fin 3)) "root").data = .undefined) :=
  c2_result_invariant dateParseNone (.stringV {}) (.num (.fin 3)) "root"

/-- C1 (divergence witness): `Schema.union([...]).optional()` does not
accept the absence sentinels — `optional()` on the union wrapper returns
`Schema.union(validators)`, which has no optional handling, so
`union([string()]).optional().validate(undefined)` fails with the
synthetic union error instead of succeeding with no data; on a
`BaseValidator` family (second conjunct) the claimed behavior does hold. -/
theorem c1_union_optional_rejects_undefined :
    validate dateParseNone ((Val.unionV [.stringV {}]).optionalV) .undefined "root" =
      { isValid := false, data := .undefined,
        errors := [⟨"root", "Value does not match any of the union types", .undefined⟩] } ∧
    validate dateParseNone ((Val.stringV {}).optionalV) .undefined "root" =
      { isValid := true, data := .undefined, errors := [] } := by
  constructor
  · rw [Val.optionalV, validate_unionV]
    rw [unionGo_cons, unionGo_nil]
    simp [validate_stringV, baseValidate, stringValidateValue, createFailure, isAbsentSentinel]
  · rw [Val.optionalV, validate_stringV]
    simp [baseValidate, isAbsentSentinel]

/-- C10: on an object validator configured with both `allowNull()` and
`optional()`, `validate(null, p)` hits the base optional sentinel check
first and returns success with no data, pre-empting the `allowNull`
short-circuit; with only `allowNull()` the same call returns success with
the canonical null datum. -/
theorem c10_optional_preempts_allowNull (P : String → Option Int)
    (s : List (String × Val)) (p : String) :
    validate P ((Val.objectV s { allowNull := true }).optionalV) .null p =
      { isValid := true, data := .undefined, errors := [] } ∧
    validate P (.objectV s { allowNull := true }) .null p =
      { isValid := true, data := .null, errors := [] } := by
  constructor
  · rw [Val.optionalV, validate_objectV]
    simp [baseValidate, isAbsentSentinel]
  · rw [validate_objectV]
    simp [baseValidate, isAbsentSentinel, objectValidateCore, createSuccess]

/-- C7: for every validator configured with `withMessage(m)`: on a
failing input every error of the result carries message `m` with its
original path and value (the error list is the pointwise message
replacement of the unconfigured validator's errors), and on a succeeding
input the result is identical to that of the validator without the custom
message. -/
theorem c7_withMessage_replaces_all (P : String → Option Int) (v : Val) (m : String)
    (x : JSValue) (p : String) :
    ((validate P v x p).isValid = true →
      validate P (v.withMessageV m) x p = validate P v x p) ∧
    ((validate P v x p).isValid = false →
      validate P (v.withMessageV m) x p =
        { isValid := false, data := .undefined,
          errors := (validate P v x p).errors.map (fun e => { e with message := m }) }) :=
  validate_withMessage_spec P m v x p

/-- Witness for C7: a failing and a succeeding concrete instance. -/
theorem c7_withMessage_replaces_all_witness :
    validate dateParseNone ((Val.stringV { minLength := some 5 }).withMessageV "custom")
      (.str "ab") "root" =
      { isValid := false, data := .undefined,
        errors := (validate dateParseNone (.stringV { minLength := some 5 })
          (.str "ab") "root").errors.map (fun e => { e with message := "custom" }) } ∧
    validate dateParseNone ((Val.stringV {}).withMessageV "custom") (.str "ok") "root" =
      validate dateParseNone (.stringV {}) (.str "ok") "root" :=
  ⟨(c7_withMessage_replaces_all dateParseNone (.stringV { minLength := some 5 }) "custom"
      (.str "ab") "root").2
      (by simp only [validate_stringV]; rfl),
   (c7_withMessage_replaces_all dateParseNone (.stringV {}) "custom" (.str "ok") "root").1
      (by simp only [validate_stringV]; rfl)⟩

/-- The union loop returns the first successful member result, else the
synthetic failure. -/
theorem unionGo_eq_find (P : String → Option Int) (vs : List Val) (x : JSValue) (p : String) :
    unionGo P vs x p =
      ((vs.map (fun v => validate P v x p)).find? (fun r => r.isValid)).getD
        { isValid := false, data := .undefined,
          errors := [⟨p, "Value does not match any of the union types", x⟩] } := by
  induction vs with
  | nil => rw [unionGo_nil]; simp
  | cons v rest ih =>
    rw [unionGo_cons]
    simp only [List.map_cons, List.find?_cons]
    by_cases hv : (validate P v x p).isValid = true
    · simp [hv]
    · have hv' : (validate P v x p).isValid = false := by
        revert hv; cases (validate P v x p).isValid <;> simp
      simp [hv', ih]

/-- C4: `union(list).validate(x, p)` tries the members in declaration
order and returns the first member success verbatim (first conjunct, via
`find?` on the member results); when no member succeeds — in particular
for the empty list, where `find?` on `[]` is `none` — it returns a failure
with exactly the one synthetic error at path `p`; with a custom message
configured via `withMessage` that message replaces the synthetic one
(second conjunct); and the spec's order example: a member list whose
second member accepts "hello" succeeds although the first rejects it
(third conjunct). -/
theorem c4_union_first_success (P : String → Option Int) (vs : List Val) (m : String)
    (x : JSValue) (p : String) :
    validate P (.unionV vs) x p =
      ((vs.map (fun v => validate P v x p)).find? (fun r => r.isValid)).getD
        { isValid := false, data := .undefined,
          errors := [⟨p, "Value does not match any of the union types", x⟩] } ∧
    validate P ((Val.unionV vs).withMessageV m) x p =
      ((vs.map (fun v => validate P v x p)).find? (fun r => r.isValid)).getD
        { isValid := false, data := .undefined, errors := [⟨p, m, x⟩] } ∧
    validate P
      (.unionV [.stringV { minLength := some 10 }, .stringV { minLength := some 3 }])
      (.str "hello") p = { isValid := true, data := .str "hello", errors := [] } := by
  refine ⟨by rw [validate_unionV]; exact unionGo_eq_find P vs x p, ?_, ?_⟩
  · rw [Val.withMessageV, validate_unionMsgV]
    simp only [unionGo_eq_find P vs x p]
    cases hf : (vs.map (fun v => validate P v x p)).find? (fun r => r.isValid) with
    | none => simp
    | some r =>
      have hval : r.isValid = true := by
        have := List.find?_some hf
        simpa using this
      simp [hval]
  · rw [validate_unionV, unionGo_cons, unionGo_cons, unionGo_nil]
    simp only [validate_stringV]
    rfl

/-- With default base options (not optional, no custom message) the base
wrapper is transparent. -/
theorem baseValidate_plain (o : ValidatorOptions) (core : JSValue → String → ValidationResult)
    (x : JSValue) (p : String) (hopt : o.optional = false) (hmsg : o.message = none) :
    baseValidate o core x p = core x p := by
  unfold baseValidate
  rw [hopt, hmsg]
  simp

/-- C9: each scalar validator in its default configuration rejects a
value of the wrong kind with exactly one error whose path is the call
path, before any constraint check (the failure is the type-check's
immediate single-error return): strings for non-string values, numbers
for non-number values, booleans (default mode) for non-convertible
values, dates for values that are not a Date, string or number. -/
theorem c9_scalar_wrong_kind (P : String → Option Int) (x : JSValue) (p : String) :
    (x.typeOf ≠ "string" →
      validate P (.stringV {}) x p =
        createFailure [⟨p, "Expected string, received " ++ x.typeOf, x⟩]) ∧
    (x.typeOf ≠ "number" →
      validate P (.numberV {}) x p =
        createFailure [⟨p, "Expected number, received " ++ x.typeOf, x⟩]) ∧
    (boolCoerce x = none →
      validate P (.booleanV {}) x p =
        createFailure [⟨p, "Cannot convert " ++ x.typeOf ++ " to boolean", x⟩]) ∧
    ((∀ t, x ≠ .date t) → (∀ z, x ≠ .str z) → (∀ n, x ≠ .num n) →
      validate P (.dateV {}) x p =
        createFailure [⟨p, "Expected Date, string, or number, received " ++ x.typeOf, x⟩]) := by
  refine ⟨?_, ?_, ?_, ?_⟩
  · intro h
    rw [validate_stringV, baseValidate_plain _ _ _ _ rfl rfl]
    cases x <;> first
      | exact absurd rfl h
      | rfl
  · intro h
    rw [validate_numberV, baseValidate_plain _ _ _ _ rfl rfl]
    cases x <;> first
      | exact absurd rfl h
      | rfl
  · intro h
    rw [validate_booleanV, baseValidate_plain _ _ _ _ rfl rfl]
    unfold booleanValidateValue
    rw [h]
    rfl
  · intro hd hs hn
    rw [validate_dateV, baseValidate_plain _ _ _ _ rfl rfl]
    cases x with
    | date t => exact absurd rfl (hd t)
    | str z => exact absurd rfl (hs z)
    | num n => exact absurd rfl (hn n)
    | undefined => rfl
    | null => rfl
    | bool b => rfl
    | arr items => rfl
    | obj fields => rfl

/-- Witness for C9 at the concrete wrong-kind input `null`. -/
theorem c9_scalar_wrong_kind_witness :
    validate dateParseNone (.stringV {}) .null "root" =
      createFailure [⟨"root", "Expected string, received object", .null⟩] ∧
    validate dateParseNone (.numberV {}) .null "root" =
      createFailure [⟨"root", "Expected number, received object", .null⟩] ∧
    validate dateParseNone (.booleanV {}) .null "root" =
      createFailure [⟨"root", "Cannot convert object to boolean", .null⟩] ∧
    validate dateParseNone (.dateV {}) .null "root" =
      createFailure [⟨"root", "Expected Date, string, or number, received object", .null⟩] :=
  ⟨(c9_scalar_wrong_kind dateParseNone .null "root").1 (by decide),
   (c9_scalar_wrong_kind dateParseNone .null "root").2.1 (by decide),
   (c9_scalar_wrong_kind dateParseNone .null "root").2.2.1 (by decide),
   (c9_scalar_wrong_kind dateParseNone .null "root").2.2.2
     (fun t h => by cases h) (fun z h => by cases h) (fun n h => by cases h)⟩

/-- The errors of the `if errors.length > 0 then failure else success`
assembly are always the accumulated list. -/
theorem errors_of_finish (es : List ValidationError) (d : JSValue) :
    (if es.length > 0 then createFailure es else createSuccess d).errors = es := by
  cases es <;> simp [createFailure, createSuccess]

/-- The assembly fails whenever the accumulated list is non-empty. -/
theorem finish_isValid_false (es : List ValidationError) (d : JSValue) (h : es ≠ []) :
    (if es.length > 0 then createFailure es else createSuccess d).isValid = false := by
  cases es with
  | nil => exact absurd rfl h
  | cons e es' => simp [createFailure]

/-- The non-strict object assembly reports exactly the schema-field
errors. -/
theorem objectFinish_errors_nonstrict (ks : List String)
    (fields : List (String × JSValue)) (p : String) (fe : List ValidationError)
    (out : List (String × JSValue)) :
    (objectFinish {} ks fields p fe out).errors = fe := by
  unfold objectFinish
  rw [if_neg (by simp : ¬(({} : ObjectOptions).strict = true))]
  exact errors_of_finish _ _

/-- The strict object assembly reports the schema-field errors followed by
one unexpected-property error per undeclared input key. -/
theorem objectFinish_errors_strict (ks : List String)
    (fields : List (String × JSValue)) (p : String) (fe : List ValidationError)
    (out : List (String × JSValue)) :
    (objectFinish { strict := true } ks fields p fe out).errors =
      fe ++ (fields.map Prod.fst).filterMap (fun k =>
        if ks.contains k then none
        else some ⟨fieldPathOf p k, "Unexpected property \"" ++ k ++ "\"", jsGet fields k⟩) := by
  unfold objectFinish
  rw [if_pos (rfl : ({ strict := true } : ObjectOptions).strict = true)]
  exact errors_of_finish _ _

theorem jsGet_cons_self (k0 : String) (v0 : JSValue) (rest : List (String × JSValue)) :
    jsGet ((k0, v0) :: rest) k0 = v0 := by
  simp [jsGet]

theorem jsGet_cons_ne (k0 : String) (v0 : JSValue) (rest : List (String × JSValue))
    (k : String) (hne : k ≠ k0) : jsGet ((k0, v0) :: rest) k = jsGet rest k := by
  have h0 : (k0 == k) = false := by simp [Ne.symm hne]
  simp [jsGet, List.find?_cons, h0]

/-- Under distinct input keys, iterating `Object.keys(value)` and reading
`value[key]` is iterating the entries themselves. -/
theorem filterMap_keys_eq {α : Type} (fields : List (String × JSValue)) (ks : List String)
    (f : String → JSValue → α) (hnd : (fields.map Prod.fst).Nodup) :
    (fields.map Prod.fst).filterMap
      (fun k => if ks.contains k then none else some (f k (jsGet fields k))) =
    (fields.filter (fun kv => !ks.contains kv.1)).map (fun kv => f kv.1 kv.2) := by
  induction fields with
  | nil => simp
  | cons kv rest ih =>
    obtain ⟨k0, v0⟩ := kv
    simp only [List.map_cons, List.nodup_cons] at hnd
    obtain ⟨hk0, hrest⟩ := hnd
    have hstep : (rest.map Prod.fst).filterMap
        (fun k => if ks.contains k then none else some (f k (jsGet ((k0, v0) :: rest) k))) =
        (rest.map Prod.fst).filterMap
        (fun k => if ks.contains k then none else some (f k (jsGet rest k))) := by
      apply List.filterMap_congr
      intro k hk
      have hne : k ≠ k0 := fun h => hk0 (h ▸ hk)
      rw [jsGet_cons_ne _ _ _ _ hne]
    simp only [List.map_cons, List.filterMap_cons, List.filter_cons, jsGet_cons_self, hstep,
      ih hrest]
    by_cases hc : k0 ∈ ks <;> simp [hc]

/-- C6: in strict mode every input key not declared in the schema yields
one unexpected-property error at that key's own path, appended after the
schema-field errors (first conjunct: strict errors are the non-strict
errors plus exactly those); without strict mode no such error is produced
and on success every such key is copied verbatim into the output data
after the schema fields (second conjunct); concretely,
`object({a: string()}).strict().validate({a:"x", b:1})` fails with exactly
one error at path `b` (third conjunct). -/
theorem c6_strict_unexpected_keys (P : String → Option Int) (s : List (String × Val))
    (fields : List (String × JSValue)) (p : String)
    (hnd : (fields.map Prod.fst).Nodup) :
    ((validate P (.objectV s { strict := true }) (.obj fields) p).errors =
      (validate P (.objectV s {}) (.obj fields) p).errors ++
      (fields.filter (fun kv => !(s.map Prod.fst).contains kv.1)).map
        (fun kv => ⟨fieldPathOf p kv.1, "Unexpected property \"" ++ kv.1 ++ "\"", kv.2⟩)) ∧
    ((validate P (.objectV s {}) (.obj fields) p).isValid = true →
      (validate P (.objectV s {}) (.obj fields) p).data =
        .obj ((objFieldsPass P s fields p).2 ++
          fields.filter (fun kv => !(s.map Prod.fst).contains kv.1))) ∧
    validate P (.objectV [("a", .stringV {})] { strict := true })
      (.obj [("a", .str "x"), ("b", .num (.fin 1))]) "root" =
      createFailure [⟨"b", "Unexpected property \"b\"", .num (.fin 1)⟩] := by
  have hplain : validate P (.objectV s {}) (.obj fields) p =
      objectValidateCore P s {} (.obj fields) p := by
    rw [validate_objectV, baseValidate_plain _ _ _ _ rfl rfl]
  have hstrict : validate P (.objectV s { strict := true }) (.obj fields) p =
      objectValidateCore P s { strict := true } (.obj fields) p := by
    rw [validate_objectV, baseValidate_plain _ _ _ _ rfl rfl]
  have hcore : ∀ o : ObjectOptions, objectValidateCore P s o (.obj fields) p =
      objectFinish o (s.map Prod.fst) fields p
        (objFieldsPass P s fields p).1 (objFieldsPass P s fields p).2 := by
    intro o
    unfold objectValidateCore
    rfl
  refine ⟨?_, ?_, ?_⟩
  · rw [hplain, hstrict, hcore, hcore, objectFinish_errors_strict,
      objectFinish_errors_nonstrict,
      filterMap_keys_eq fields (s.map Prod.fst)
        (fun k v => (⟨fieldPathOf p k, "Unexpected property \"" ++ k ++ "\"", v⟩ :
          ValidationError)) hnd]
  · intro hval
    rw [hplain, hcore] at hval ⊢
    have hfe : (objFieldsPass P s fields p).1 = [] := by
      by_contra hne
      have hfalse : (objectFinish {} (s.map Prod.fst) fields p
          (objFieldsPass P s fields p).1 (objFieldsPass P s fields p).2).isValid = false := by
        unfold objectFinish
        rw [if_neg (by simp : ¬(({} : ObjectOptions).strict = true))]
        exact finish_isValid_false _ _ hne
      rw [hfalse] at hval
      exact absurd hval (by simp)
    unfold objectFinish
    rw [if_neg (by simp : ¬(({} : ObjectOptions).strict = true))]
    rw [hfe]
    rw [filterMap_keys_eq fields (s.map Prod.fst)
      (fun k v => ((k, v) : String × JSValue)) hnd]
    simp [createSuccess]
  · rw [validate_objectV, baseValidate_plain _ _ _ _ rfl rfl]
    unfold objectValidateCore
    simp only [objFieldsPass, validate_stringV]
    rfl

/-- Witness for C6 at the spec's concrete example. -/
theorem c6_strict_unexpected_keys_witness :
    validate dateParseNone (.objectV [("a", .stringV {})] { strict := true })
      (.obj [("a", .str "x"), ("b", .num (.fin 1))]) "root" =
      createFailure [⟨"b", "Unexpected property \"b\"", .num (.fin 1)⟩] :=
  (c6_strict_unexpected_keys dateParseNone [("a", .stringV {})]
    [("a", .str "x"), ("b", .num (.fin 1))] "root" (by simp)).2.2

/-- C8: with no format constraint (and default base options, any bounds),
every string input carrying a dash-separated `YYYY-MM-DD`-style date whose
month part is outside 1-12, day part outside 1-31, or that names February
with a day above 29 is rejected with a single invalid-date error at the
call path, regardless of how the platform's `new Date` parses the string.
The hypotheses spell out "contains a YYYY-MM-DD-style dash-separated
date": the trimmed value contains a dash, splits on dashes into at least
three parts, and its second and third parts parse as the month and day
numbers. -/
theorem c8_date_plausibility (P : String → Option Int) (o : DateOptions)
    (s p p0 p1 p2 : String) (rest : List String) (mo dy : Int)
    (hfmt : o.format = none) (hopt : o.optional = false) (hmsg : o.message = none)
    (hdash : (jsTrim s).toList.contains '-' = true)
    (hsplit : strSplitOn (jsTrim s) "-" = p0 :: p1 :: p2 :: rest)
    (hmo : parseIntJS p1 = some mo)
    (hdy : parseIntJS p2 = some dy)
    (hbad : 12 < mo ∨ mo < 1 ∨ 31 < dy ∨ dy < 1 ∨ (mo = 2 ∧ 29 < dy)) :
    validate P (.dateV o) (.str s) p =
      createFailure [⟨p, "Invalid date", .str s⟩] := by
  have hne : jsTrim s ≠ "" := by
    intro h
    rw [h] at hdash
    simp at hdash
  have hfc : dateFormatCheck o (.str s) p = none := by
    unfold dateFormatCheck
    rw [hfmt]
  have hedge : dateStringEdgeRejects o s = true := by
    unfold dateStringEdgeRejects
    rw [hfmt]
    rw [if_pos (by simp [hne])]
    by_cases hfirst : ((jsTrim s).length < 4 || !(jsTrim s).toList.any Char.isDigit ||
        jsTrim s == "Invalid Date") = true
    · rw [if_pos hfirst]
    · rw [if_neg hfirst, if_pos hdash]
      rw [if_pos (by simp [hsplit])]
      have hg1 : (strSplitOn (jsTrim s) "-").getD 1 "" = p1 := by simp [hsplit]
      have hg2 : (strSplitOn (jsTrim s) "-").getD 2 "" = p2 := by simp [hsplit]
      rw [hg1, hg2, hmo, hdy]
      rcases hbad with h | h | h | h | ⟨h2, h29⟩
      · simp [parsedGt, parsedLt, h]
      · simp [parsedGt, parsedLt, h]
      · simp [parsedGt, parsedLt, h]
      · simp [parsedGt, parsedLt, h]
      · subst h2
        simp [parsedGt, parsedLt, h29]
  rw [validate_dateV, baseValidate_plain _ _ _ _ hopt hmsg]
  unfold dateValidateValue
  rw [hfc]
  simp only []
  rw [hfmt]
  by_cases hpre : dateStringPrefilterRejects s = true
  · simp [hpre]
  · simp only [hpre]
    simp only [decide_True, Bool.true_and, Bool.false_eq_true, if_false]
    cases hP : P s with
    | none =>
      unfold dateAfterConstruction
      simp
    | some t =>
      unfold dateAfterConstruction
      rw [if_neg (show ¬((none : Option DateFormat) = some DateFormat.timestamp) by simp)]
      simp [hedge]

/-- Witness for C8 at the spec's concrete example `2023-02-30`. -/
theorem c8_date_plausibility_witness :
    validate dateParseNone (.dateV {}) (.str "2023-02-30") "root" =
      createFailure [⟨"root", "Invalid date", .str "2023-02-30"⟩] :=
  c8_date_plausibility dateParseNone {} "2023-02-30" "root" "2023" "02" "30" [] 2 30
    rfl rfl rfl (by decide) (by decide) (by decide) (by decide) (by decide)

/-- Keys equal under the scan's Set semantics are equal values
(composite keys have been replaced by strings, and `primEq` is false on
raw composites). -/
theorem eq_of_primEq {a b : JSValue} (h : primEq a b = true) : a = b := by
  cases a <;> cases b <;> simp_all [primEq]

/-- Skipping an already-seen key in the middle of a key list does not
change whether any key matches. -/
theorem any_middle (seen l : List JSValue) (x e : JSValue)
    (hx : seen.any (fun s => primEq s x) = true) :
    ((seen ++ x :: l).any (fun kk => primEq kk e)) =
      ((seen ++ l).any (fun kk => primEq kk e)) := by
  simp only [List.any_append, List.any_cons]
  by_cases hq : primEq x e = true
  · obtain ⟨s, hs, hpe⟩ := List.any_eq_true.mp hx
    have hseen : seen.any (fun kk => primEq kk e) = true :=
      List.any_eq_true.mpr ⟨s, hs, by rw [eq_of_primEq hpe]; exact hq⟩
    simp [hseen, hq]
  · have hq' : primEq x e = false := by revert hq; cases primEq x e <;> simp
    simp [hq']

/-- The duplicate scan flags exactly the positions whose key repeats an
earlier position's key (relative to the keys already `seen`). -/
theorem dupScan_spec : ∀ (keys seen : List JSValue) (i j : Nat),
    j ∈ dupScan seen i keys ↔
      ∃ (k : Nat) (hk : k < keys.length), j = i + k ∧
        ((seen ++ keys.take k).any (fun kk => primEq kk keys[k]) = true) := by
  intro keys
  induction keys with
  | nil => intro seen i j; simp [dupScan]
  | cons x rest ih =>
    intro seen i j
    simp only [dupScan]
    by_cases hx : seen.any (fun s => primEq s x) = true
    · rw [if_pos hx]
      simp only [List.mem_cons, ih]
      constructor
      · rintro (rfl | ⟨k, hk, rfl, hany⟩)
        · exact ⟨0, by simp, by simp, by simpa using hx⟩
        · refine ⟨k + 1, by simpa using Nat.succ_lt_succ hk, by omega, ?_⟩
          simp only [List.take_succ_cons, List.getElem_cons_succ]
          rw [any_middle seen _ x _ hx]
          exact hany
      · rintro ⟨k, hk, rfl, hany⟩
        cases k with
        | zero => left; omega
        | succ k' =>
          right
          refine ⟨k', by simpa using hk, by omega, ?_⟩
          simp only [List.take_succ_cons, List.getElem_cons_succ] at hany
          rw [any_middle seen _ x _ hx] at hany
          exact hany
    · rw [if_neg hx]
      rw [ih (seen ++ [x]) (i + 1) j]
      constructor
      · rintro ⟨k, hk, rfl, hany⟩
        refine ⟨k + 1, by simpa using Nat.succ_lt_succ hk, by omega, ?_⟩
        simp only [List.take_succ_cons, List.getElem_cons_succ]
        simpa [List.append_assoc] using hany
      · rintro ⟨k, hk, rfl, hany⟩
        cases k with
        | zero =>
          exact absurd (by simpa using hany) hx
        | succ k' =>
          refine ⟨k', by simpa using hk, by omega, ?_⟩
          simp only [List.take_succ_cons, List.getElem_cons_succ] at hany
          simpa [List.append_assoc] using hany

/-- When every item passes, the item loop collects no errors. -/
theorem arrItemsPass_no_errors (P : String → Option Int) (it : Val) (p : String) :
    ∀ (items : List JSValue) (i : Nat),
    (∀ (j : Nat) (hj : j < items.length),
      (validate P it items[j] (idxPath p (i + j))).isValid = true) →
    (arrItemsPass P it p i items).1 = [] := by
  intro items
  induction items with
  | nil => intro i h; simp [arrItemsPass]
  | cons x rest ih =>
    intro i h
    have h0 : (validate P it x (idxPath p i)).isValid = true := by
      have := h 0 (by simp)
      simpa using this
    have hrest : ∀ (j : Nat) (hj : j < rest.length),
        (validate P it rest[j] (idxPath p ((i + 1) + j))).isValid = true := by
      intro j hj
      have := h (j + 1) (by simpa using Nat.succ_lt_succ hj)
      have harith : i + (j + 1) = (i + 1) + j := by omega
      simpa [harith] using this
    simp only [arrItemsPass, h0]
    cases hd : (validate P it x (idxPath p i)).data <;>
      simp [ih (i + 1) hrest]

/-- C5 (amended): for an array validator with `unique()` set, given an
input whose items all pass the item validator, the result is determined
by the duplicate scan over the sequence of collected item outputs
(an item that passes without producing data is skipped): success with the
collected items if no output position repeats an earlier output's key,
otherwise a failure with exactly one duplicate error per repeating output
position, indexed by that output position (first conjunct); a position is
flagged exactly when its key — primitive by value, composite by
serialized form — repeats an earlier position's key, so first occurrences
are never flagged (second conjunct); when every item yields data the
output positions coincide with the input indices, as in the spec example
`validate([1,2,1])` failing with exactly one error at `root[2]` (third
conjunct). -/
theorem c5_unique_duplicate_errors (P : String → Option Int) (it : Val)
    (items : List JSValue) (p : String)
    (hall : ∀ (j : Nat) (hj : j < items.length),
      (validate P it items[j] (idxPath p j)).isValid = true) :
    (validate P (.arrayV it { unique := true }) (.arr items) p =
      (if dupIndices (((arrItemsPass P it p 0 items).2).map uniqueKey) = [] then
        createSuccess (.arr (arrItemsPass P it p 0 items).2)
      else
        createFailure
          ((dupIndices (((arrItemsPass P it p 0 items).2).map uniqueKey)).map (fun i =>
            ⟨idxPath p i, "Array items must be unique",
              ((arrItemsPass P it p 0 items).2).getD i .undefined⟩)))) ∧
    (∀ (keys : List JSValue) (j : Nat),
      j ∈ dupIndices keys ↔
        ∃ (hj : j < keys.length),
          ((keys.take j).any (fun kk => primEq kk keys[j]) = true)) ∧
    validate P (.arrayV (.numberV {}) { unique := true })
      (.arr [.num (.fin 1), .num (.fin 2), .num (.fin 1)]) p =
      createFailure [⟨idxPath p 2, "Array items must be unique", .num (.fin 1)⟩] := by
  refine ⟨?_, ?_, ?_⟩
  · have hfe : (arrItemsPass P it p 0 items).1 = [] :=
      arrItemsPass_no_errors P it p items 0 (by simpa using hall)
    rw [validate_arrayV, baseValidate_plain _ _ _ _ rfl rfl]
    show arrayFinish { unique := true } (.arr items) items.length p
        (arrItemsPass P it p 0 items).1 (arrItemsPass P it p 0 items).2 = _
    rw [hfe]
    unfold arrayFinish
    cases hcol : (arrItemsPass P it p 0 items).2 with
    | nil => simp [dupIndices, dupScan, createSuccess]
    | cons d ds =>
      simp only [List.nil_append, List.append_nil]
      cases hdup : dupIndices ((d :: ds).map uniqueKey) with
      | nil => simp [hdup, createSuccess]
      | cons j js => simp [hdup, createFailure]
  · intro keys j
    rw [dupIndices, dupScan_spec keys [] 0 j]
    constructor
    · rintro ⟨k, hk, rfl, hany⟩
      exact ⟨by simpa using hk, by simpa using hany⟩
    · rintro ⟨hj, hany⟩
      exact ⟨j, hj, by omega, by simpa using hany⟩
  · rw [validate_arrayV, baseValidate_plain _ _ _ _ rfl rfl]
    show arrayFinish { unique := true } _ _ p
        (arrItemsPass P (.numberV {}) p 0 _).1 (arrItemsPass P (.numberV {}) p 0 _).2 = _
    simp only [arrItemsPass, validate_numberV]
    rfl

/-- C5 counterexample to the claim as stated: with an optional number
item validator, every item of `[1, undefined, 1]` passes (first three
conjuncts), and the item at index 2 repeats the key of the item at index
0, so the claim demands one duplicate error at `root[2]`; the code skips
the sentinel item when collecting outputs and reports the duplicate at
the collected position `root[1]` instead. -/
theorem c5_unique_counterexample :
    (validate dateParseNone (.numberV { optional := true }) (.num (.fin 1))
      (idxPath "root" 0)).isValid = true ∧
    (validate dateParseNone (.numberV { optional := true }) .undefined
      (idxPath "root" 1)).isValid = true ∧
    (validate dateParseNone (.numberV { optional := true }) (.num (.fin 1))
      (idxPath "root" 2)).isValid = true ∧
    validate dateParseNone (.arrayV (.numberV { optional := true }) { unique := true })
      (.arr [.num (.fin 1), .undefined, .num (.fin 1)]) "root" =
      createFailure [⟨"root[1]", "Array items must be unique", .num (.fin 1)⟩] ∧
    "root[1]" ≠ "root[2]" := by
  refine ⟨?_, ?_, ?_, ?_, by decide⟩
  · rw [validate_numberV]; rfl
  · rw [validate_numberV]; rfl
  · rw [validate_numberV]; rfl
  · rw [validate_arrayV, baseValidate_plain _ _ _ _ rfl rfl]
    show arrayFinish { unique := true } _ _ "root"
        (arrItemsPass dateParseNone (.numberV { optional := true }) "root" 0 _).1
        (arrItemsPass dateParseNone (.numberV { optional := true }) "root" 0 _).2 = _
    simp only [arrItemsPass, validate_numberV]
    rfl

/-- Witness for C5 at the spec's concrete example. -/
theorem c5_unique_duplicate_errors_witness :
    validate dateParseNone (.arrayV (.numberV {}) { unique := true })
      (.arr [.num (.fin 1), .num (.fin 2), .num (.fin 1)]) "root" =
      createFailure [⟨idxPath "root" 2, "Array items must be unique", .num (.fin 1)⟩] :=
  (c5_unique_duplicate_errors dateParseNone (.numberV {})
    [.num (.fin 1), .num (.fin 2), .num (.fin 1)] "root"
    (fun j hj => by
      have h3 : j < 3 := by simpa using hj
      interval_cases j <;> (rw [validate_numberV]; rfl))).2.2

/-! ## C3: builder immutability, on an explicit heap

A TS validator instance is a heap object; a builder method could in
principle mutate it.  To state that none does, the embedding makes the
heap explicit: a store of validator configurations, validators as
references into it (each cell holds the instance's full configuration;
child validators of composites are themselves never mutated, so their
sharing needs no separate addressing).  Every configuration method of the
library is enumerated by `BuilderCall`; each reads the receiver's
configuration and constructs a new validator from the merged
configuration (`new XValidator({...options, override})`), which the heap
model renders as an allocation. -/

/-- Every configuration method a validator instance exposes, with its
arguments.  `optionalB`/`withMessageB` exist on every validator
(base-validator.ts lines 61-77, the array/object overrides, and the
combinator objects of schema.ts); the rest are the family-specific
builders. -/
inductive BuilderCall where
  | optionalB
  | withMessageB (m : String)
  | sMinLength (n : Nat)
  | sMaxLength (n : Nat)
  | sLength (a b : Nat)
  | sPattern (re : String → Bool)
  | sTrim
  | sEmail
  | sUrl
  | sUuid
  | nMin (v : Int)
  | nMax (v : Int)
  | nRange (a b : Int)
  | nInteger
  | nPositive
  | nNegative
  | nFinite
  | nMultipleOf (d : Int)
  | bStrict
  | bTruthy
  | dMin (t : Int)
  | dMax (t : Int)
  | dRange (a b : Int)
  | dPast (now : Int)
  | dFuture (now : Int)
  | dIso
  | dTimestamp
  | aMinLength (n : Nat)
  | aMaxLength (n : Nat)
  | aLength (a b : Nat)
  | aUnique
  | aNoEmpty
  | oStrict
  | oPartial
  | oAllowNull
  | oPick (keys : List String)
  | oOmit (keys : List String)
  | oExtend (ext : List (String × Val))

/-- Schema lookup used by `extend`'s spread merge. -/
def schemaGet (ext : List (String × Val)) (k : String) : Option Val :=
  (ext.find? (fun kv => kv.1 == k)).map (fun kv => kv.2)

/-- The configuration each method's `new XValidator({...})` call receives,
per the source; `none` when the method does not exist on that validator
family (a TS type error).
String: string-validator.ts lines 141-221.  Number: number-validator.ts
lines 381-461.  Boolean: boolean-validator.ts lines 92-107.  Date:
date-validator.ts lines 188-257 (`past()`/`future()` read the clock at
configuration time; that instant is the `now` argument).  Array:
array-validator.ts lines 135-205.  Object: object-validator.ts lines
119-219 (`partial()` wraps every field validator in `optional()`;
`pick`/`omit` keep the listed/unlisted fields with their validators and
pass the options through unchanged; `extend` is the spread merge, new
fields replacing colliding ones). -/
def applyBuilder : BuilderCall → Val → Option Val
  | .optionalB, v => some v.optionalV
  | .withMessageB m, v => some (v.withMessageV m)
  | .sMinLength n, .stringV o => some (.stringV { o with minLength := some n })
  | .sMaxLength n, .stringV o => some (.stringV { o with maxLength := some n })
  | .sLength a b, .stringV o =>
      some (.stringV { o with minLength := some a, maxLength := some b })
  | .sPattern re, .stringV o => some (.stringV { o with pattern := some re })
  | .sTrim, .stringV o => some (.stringV { o with trim := true })
  | .sEmail, .stringV o => some (.stringV { o with email := true })
  | .sUrl, .stringV o => some (.stringV { o with url := true })
  | .sUuid, .stringV o => some (.stringV { o with uuid := true })
  | .nMin v, .numberV o => some (.numberV { o with min := some v })
  | .nMax v, .numberV o => some (.numberV { o with max := some v })
  | .nRange a b, .numberV o => some (.numberV { o with min := some a, max := some b })
  | .nInteger, .numberV o => some (.numberV { o with integer := true })
  | .nPositive, .numberV o => some (.numberV { o with positive := true })
  | .nNegative, .numberV o => some (.numberV { o with negative := true })
  | .nFinite, .numberV o => some (.numberV { o with finite := true })
  | .nMultipleOf d, .numberV o => some (.numberV { o with multipleOf := some d })
  | .bStrict, .booleanV o => some (.booleanV { o with strict := true })
  | .bTruthy, .booleanV o => some (.booleanV { o with truthy := true })
  | .dMin t, .dateV o => some (.dateV { o with min := some t })
  | .dMax t, .dateV o => some (.dateV { o with max := some t })
  | .dRange a b, .dateV o => some (.dateV { o with min := some a, max := some b })
  | .dPast now, .dateV o => some (.dateV { o with max := some now })
  | .dFuture now, .dateV o => some (.dateV { o with min := some now })
  | .dIso, .dateV o => some (.dateV { o with format := some .iso })
  | .dTimestamp, .dateV o => some (.dateV { o with format := some .timestamp })
  | .aMinLength n, .arrayV it o => some (.arrayV it { o with minLength := some n })
  | .aMaxLength n, .arrayV it o => some (.arrayV it { o with maxLength := some n })
  | .aLength a b, .arrayV it o =>
      some (.arrayV it { o with minLength := some a, maxLength := some b })
  | .aUnique, .arrayV it o => some (.arrayV it { o with unique := true })
  | .aNoEmpty, .arrayV it o => some (.arrayV it { o with noEmpty := true })
  | .oStrict, .objectV s o => some (.objectV s { o with strict := true })
  | .oPartial, .objectV s o =>
      some (.objectV (s.map (fun kv => (kv.1, kv.2.optionalV))) { o with partialMode := true })
  | .oAllowNull, .objectV s o => some (.objectV s { o with allowNull := true })
  | .oPick keys, .objectV s o =>
      some (.objectV
        (keys.filterMap (fun k => (schemaGet s k).map (fun w => (k, w)))) o)
  | .oOmit keys, .objectV s o =>
      some (.objectV (s.filter (fun kv => !keys.contains kv.1)) o)
  | .oExtend ext, .objectV s o =>
      some (.objectV
        (s.map (fun kv => (kv.1, (schemaGet ext kv.1).getD kv.2)) ++
          ext.filter (fun kv => !(s.map Prod.fst).contains kv.1)) o)
  | _, _ => none

/-- The heap of validator configurations. -/
structure VStore where
  vals : List Val

/-- A validator instance: a reference into the store. -/
structure VRef where
  addr : Nat
deriving DecidableEq

/-- Constructor call: allocate the configuration, return the new
instance. -/
def vNew (st : VStore) (w : Val) : VStore × VRef :=
  (⟨st.vals ++ [w]⟩, ⟨st.vals.length⟩)

/-- The configuration a reference currently holds. -/
def vGet (st : VStore) (v : VRef) : Val :=
  st.vals.getD v.addr .anyV

/-- A configuration-method call on a store-resident validator: read the
receiver's configuration, construct the new validator from the merged
configuration. -/
def vBuild (b : BuilderCall) (st : VStore) (v : VRef) : Option (VStore × VRef) :=
  (applyBuilder b (vGet st v)).map (vNew st)

/-- `validate` on a store-resident validator. -/
def vValidate (P : String → Option Int) (st : VStore) (v : VRef) (x : JSValue)
    (p : String) : ValidationResult :=
  validate P (vGet st v) x p

/-- Allocation preserves every existing cell. -/
theorem vGet_after_new (st : VStore) (w : Val) (v : VRef)
    (hv : v.addr < st.vals.length) :
    vGet (vNew st w).1 v = vGet st v := by
  unfold vGet vNew
  simp only []
  rw [List.getD_eq_getElem?_getD, List.getD_eq_getElem?_getD,
    List.getElem?_append_left hv]

/-- C3: no configuration method of any validator mutates its receiver.
For every validator `v1` in the store and every configuration method `b`
the receiver supports (every family builder, `strict`/`truthy`/`partial`/
`pick`/`omit`/`extend` included, plus `optional`/`withMessage` on every
validator kind), after `v2 = v1.b(...)`: validating any value with `v1`
yields exactly the result it yielded before the call, `v2` is a new
instance (a different reference), and `v2` holds precisely the receiver's
configuration merged with the override (`applyBuilder`).  The second
group instantiates the spec's example: `v2 = v1.minLength(3)` leaves `v1`
unconstrained — after the call `v1` still accepts "ab" while `v2`
rejects it. -/
theorem c3_builders_do_not_mutate (b : BuilderCall) (st st' : VStore) (v1 v2 : VRef)
    (hv : v1.addr < st.vals.length)
    (hb : vBuild b st v1 = some (st', v2)) :
    ((∀ (P : String → Option Int) (x : JSValue) (p : String),
        vValidate P st' v1 x p = vValidate P st v1 x p) ∧
      v2 ≠ v1 ∧
      some (vGet st' v2) = applyBuilder b (vGet st v1)) ∧
    (vBuild (.sMinLength 3) ⟨[.stringV {}]⟩ ⟨0⟩ =
        some (⟨[.stringV {}, .stringV { minLength := some 3 }]⟩, ⟨1⟩) ∧
      vValidate dateParseNone ⟨[.stringV {}, .stringV { minLength := some 3 }]⟩ ⟨0⟩
        (.str "ab") "root" = createSuccess (.str "ab") ∧
      (vValidate dateParseNone ⟨[.stringV {}, .stringV { minLength := some 3 }]⟩ ⟨1⟩
        (.str "ab") "root").isValid = false) := by
  have hmain : (∀ (P : String → Option Int) (x : JSValue) (p : String),
      vValidate P st' v1 x p = vValidate P st v1 x p) ∧
      v2 ≠ v1 ∧ some (vGet st' v2) = applyBuilder b (vGet st v1) := by
    unfold vBuild at hb
    cases happ : applyBuilder b (vGet st v1) with
    | none => rw [happ] at hb; exact absurd hb (by simp)
    | some w =>
      rw [happ] at hb
      have hb2 : vNew st w = (st', v2) := by simpa using hb
      have hst : (vNew st w).1 = st' := by rw [hb2]
      have hv2 : (vNew st w).2 = v2 := by rw [hb2]
      subst hst
      subst hv2
      refine ⟨?_, ?_, ?_⟩
      · intro P x p
        unfold vValidate
        rw [vGet_after_new st w v1 hv]
      · intro h
        have : st.vals.length = v1.addr := congrArg VRef.addr h
        omega
      · unfold vGet vNew
        simp
  refine ⟨hmain, rfl, ?_, ?_⟩
  · show validate dateParseNone (.stringV {}) (.str "ab") "root" = _
    rw [validate_stringV]
    rfl
  · show (validate dateParseNone (.stringV { minLength := some 3 })
      (.str "ab") "root").isValid = false
    rw [validate_stringV]
    rfl

/-- Witness for C3 at the `minLength(3)` call on a one-validator store. -/
theorem c3_builders_do_not_mutate_witness :
    vValidate dateParseNone ⟨[Val.stringV {}, .stringV { minLength := some 3 }]⟩ ⟨0⟩
      (.str "ab") "root" =
      vValidate dateParseNone ⟨[Val.stringV {}]⟩ ⟨0⟩ (.str "ab") "root" ∧
    (⟨1⟩ : VRef) ≠ (⟨0⟩ : VRef) ∧
    some (vGet ⟨[Val.stringV {}, .stringV { minLength := some 3 }]⟩ ⟨1⟩) =
      applyBuilder (.sMinLength 3) (vGet ⟨[Val.stringV {}]⟩ ⟨0⟩) :=
  (c3_builders_do_not_mutate (.sMinLength 3) ⟨[.stringV {}]⟩
    ⟨[.stringV {}, .stringV { minLength := some 3 }]⟩ ⟨0⟩ ⟨1⟩ (by decide) rfl).1.imp
    (fun h => h dateParseNone (.str "ab") "root") id

end TSV
